import Mathlib

/-!
# Flowscope navigation-flow analyzer: shallow embedding and verification

This file embeds the repository's flow analyzer (`src/lib/github-analyzer.ts`,
the newer "PageFlow" model, which the spec treats as authoritative) into Lean
and proves or refutes the frozen claims about it.

Modelling conventions:
* JS strings are Lean `String`s; the analyzer's `String.prototype.includes`
  and literal-alternation `RegExp.test` calls become executable substring
  scans over `List Char` (`hasSub`).
* `componentName.toLowerCase()` becomes a character-wise `Char.toLower` map
  (`lowerStr`), adequate for the ASCII identifiers the `\w+` captures yield.
* Network effects are passed in explicitly: an attempt sequence for
  `fetchWithRetry`, a content function for the second (connection) pass, and
  the scanned candidate-file list for the directory walk.
* The in-place mutation of the module-level `DEMO_ANALYSIS` constant
  (aliased `pages` array) is modelled by explicit state passing: the mutable
  cell is the first demo page's `metadata.description`, the only field the
  program ever writes through the alias.
-/

namespace Flowscope

/-! ## Generic list/string utilities (JS `includes`, `split`, `trim`, …) -/

/-- Substring test on character lists: does `pat` occur inside `l`?
Mirrors JS `String.prototype.includes` / literal-regex `test`. -/
def hasSub (l pat : List Char) : Bool :=
  pat.isPrefixOf l ||
  match l with
  | [] => false
  | _ :: t => hasSub t pat

/-- JS `s.includes(pat)` on Lean strings. -/
def strContains (s pat : String) : Bool := hasSub s.data pat.data

/-- Character-wise lowercasing, the model of JS `toLowerCase()` for the
ASCII identifiers produced by the analyzer's `\w+` captures. -/
def lowerStr (s : String) : String := ⟨s.data.map Char.toLower⟩

/-- The characters after the first occurrence of `pat` in `l`
(`none` when `pat` does not occur). -/
def afterFirst (l pat : List Char) : Option (List Char) :=
  if pat.isPrefixOf l then some (l.drop pat.length)
  else
    match l with
    | [] => none
    | _ :: t => afterFirst t pat

/-- The characters before the first occurrence of `pat`
(all of `l` when `pat` does not occur). -/
def upToFirst (l pat : List Char) : List Char :=
  if pat.isPrefixOf l then []
  else
    match l with
    | [] => []
    | c :: t => c :: upToFirst t pat

/-- JS whitespace test used by `trim` (ASCII portion). -/
def isWs (c : Char) : Bool := c = ' ' || c = '\t' || c = '\n' || c = '\r'

/-- JS `s.trim()`. -/
def trimList (l : List Char) : List Char :=
  ((l.dropWhile isWs).reverse.dropWhile isWs).reverse

/-- JS `s.replace(/\/$/, '')`: drop one trailing slash. -/
def dropTrailingSlash (l : List Char) : List Char :=
  match l.reverse with
  | '/' :: rest => rest.reverse
  | _ => l

/-- Drop the literal suffix `suf` from `l` if present, else `l` unchanged
(the model of `replace(/lit$/, '')` for a literal alternative). -/
def dropSuffix (l suf : List Char) : List Char :=
  if suf.reverse.isPrefixOf l.reverse then l.take (l.length - suf.length) else l

/-! ## Decimal numerals (JS template `${index}`) -/

/-- Little-endian base-10 digits, fuel-driven so the kernel can evaluate it.
With `fuel ≥ n` this computes the decimal digits of `n` (empty for 0). -/
def decDigitsAux : Nat → Nat → List Nat
  | 0, _ => []
  | fuel + 1, n => if n = 0 then [] else n % 10 :: decDigitsAux fuel (n / 10)

/-- Little-endian decimal digits of `n`. -/
def decDigits (n : Nat) : List Nat := decDigitsAux n n

/-- Value of a little-endian digit list. -/
def ofDec (l : List Nat) : Nat := l.foldr (fun d r => d + 10 * r) 0

/-- JS decimal rendering of a natural number (`${n}` in a template literal),
as a character list. -/
def natDecChars (n : Nat) : List Char :=
  if n = 0 then ['0'] else ((decDigits n).map Nat.digitChar).reverse

/-- JS decimal rendering of a natural number, as a string. -/
def natDec (n : Nat) : String := ⟨natDecChars n⟩

/-! ## Data model (`src/types/analysis.ts`, PageFlow family) -/

/-- `PageFlow.type` in `src/types/analysis.ts`. -/
inductive PageType where
  | page | layout | modal | redirect
deriving DecidableEq, Repr

/-- `PageConnection.type`. -/
inductive ConnType where
  | navigation | redirect | modal | conditional
deriving DecidableEq, Repr

/-- `metadata.complexity`. -/
inductive Complexity where
  | low | medium | high
deriving DecidableEq, Repr

/-- `UserJourney.userType`. -/
inductive UserType where
  | guest | authenticated | admin
deriving DecidableEq, Repr

/-- `PageConnection` in `src/types/analysis.ts`. -/
structure PageConnection where
  targetPageId : String
  type : ConnType
  trigger : String
  condition : Option String := none
deriving DecidableEq, Repr

/-- The `metadata` record of `PageFlow`. -/
structure PageMetadata where
  title : String
  description : String
  hasAuth : Bool
  hasParams : Bool
  isProtected : Bool
  complexity : Complexity
  userActions : List String
  entryPoints : List String
deriving DecidableEq, Repr

/-- `PageFlow` in `src/types/analysis.ts` (`children` of routes and the
optional `position` are carried verbatim; the analyzer only sets `position`
in the demo dataset). -/
structure PageFlow where
  id : String
  name : String
  path : String
  filePath : String
  type : PageType
  connections : List PageConnection
  position : Option (Nat × Nat) := none
  metadata : PageMetadata
deriving DecidableEq, Repr

/-- `RouteInfo` (the analyzer never constructs `children`, so the field is
omitted from the embedding). -/
structure RouteInfo where
  path : String
  component : String
  filePath : String
  guards : Option (List String) := none
  params : Option (List String) := none
deriving DecidableEq, Repr

/-- `UserJourney`. -/
structure UserJourney where
  id : String
  name : String
  description : String
  steps : List PageFlow
  startPage : String
  endPage : String
  userType : UserType
deriving DecidableEq, Repr

/-- `FlowAnalysisResult`. -/
structure FlowAnalysisResult where
  repoUrl : String
  repoName : String
  pages : List PageFlow
  routes : List RouteInfo
  userJourneys : List UserJourney
  totalFiles : Nat
  analyzedFiles : Nat
  timestamp : String
deriving DecidableEq, Repr

/-- `GitHubRepo` (the parser always supplies `branch`, so it is total here). -/
structure GitHubRepo where
  url : String
  owner : String
  name : String
  branch : String
deriving DecidableEq, Repr

/-! ## Feature tests (the literal-alternation regexes of `detectPageFlows`) -/

/-- `/useAuth|isAuthenticated|requireAuth|PrivateRoute|ProtectedRoute/.test(content)` -/
def hasAuthB (content : String) : Bool :=
  strContains content "useAuth" || strContains content "isAuthenticated" ||
  strContains content "requireAuth" || strContains content "PrivateRoute" ||
  strContains content "ProtectedRoute"

/-- `':' followed by a word character`, the `:\w+` alternative of the
`hasParams` regex. -/
def hasColonWord : List Char → Bool
  | [] => false
  | [_] => false
  | ':' :: c :: t => (c.isAlphanum || c = '_') || hasColonWord (c :: t)
  | _ :: c :: t => hasColonWord (c :: t)

/-- One line matches the `\$\{.*\}` alternative: it contains `${` with a
`}` somewhere after it (`.` does not cross newlines). -/
def lineHasDollarBrace (l : List Char) : Bool :=
  match afterFirst l ['$', '\x7b'] with
  | some rest => rest.contains '\x7d'
  | none => false

/-- Split on newline characters (JS lines for the purposes of `.`-bounded
regex alternatives and line counting). -/
def splitLines (l : List Char) : List (List Char) :=
  match l with
  | [] => [[]]
  | '\n' :: t => [] :: splitLines t
  | c :: t =>
    match splitLines t with
    | [] => [[c]]
    | h :: r => (c :: h) :: r

/-- `/useParams|props\.match\.params|\$\{.*\}|:\w+/.test(content)` -/
def hasParamsB (content : String) : Bool :=
  strContains content "useParams" || strContains content "props.match.params" ||
  (splitLines content.data).any lineHasDollarBrace || hasColonWord content.data

/-- `/requireAuth|ProtectedRoute|authGuard|canActivate/.test(content)` -/
def isProtectedB (content : String) : Bool :=
  strContains content "requireAuth" || strContains content "ProtectedRoute" ||
  strContains content "authGuard" || strContains content "canActivate"

/-- `/useState|useReducer|this\.state/.test(content)` -/
def hasStateB (content : String) : Bool :=
  strContains content "useState" || strContains content "useReducer" ||
  strContains content "this.state"

/-- `/useEffect|componentDidMount|componentDidUpdate/.test(content)` -/
def hasEffectsB (content : String) : Bool :=
  strContains content "useEffect" || strContains content "componentDidMount" ||
  strContains content "componentDidUpdate"

/-- `/fetch\(|axios\.|api\.|useQuery|useMutation/.test(content)` -/
def hasAPIB (content : String) : Bool :=
  strContains content "fetch(" || strContains content "axios." ||
  strContains content "api." || strContains content "useQuery" ||
  strContains content "useMutation"

/-- `/<form|useForm|Formik|react-hook-form/.test(content)` -/
def hasFormB (content : String) : Bool :=
  strContains content "<form" || strContains content "useForm" ||
  strContains content "Formik" || strContains content "react-hook-form"

/-- The five boolean signals whose count drives the complexity bucket,
in the order of `[hasState, hasEffects, hasAPI, hasForm, hasAuth]`. -/
def complexitySignals (content : String) : List Bool :=
  [hasStateB content, hasEffectsB content, hasAPIB content,
   hasFormB content, hasAuthB content]

/-- `complexityScore` of `detectPageFlows`: the number of `true` signals. -/
def complexityScore (content : String) : Nat :=
  (complexitySignals content).count true

/-- The complexity bucket computed in `detectPageFlows`
(`>= 4 → high`, `>= 2 → medium`, else `low`). -/
def complexityOf (content : String) : Complexity :=
  if 4 ≤ complexityScore content then .high
  else if 2 ≤ complexityScore content then .medium
  else .low

/-- Case-insensitive containment (for the `/…/i` regexes). -/
def strContainsCI (s pat : String) : Bool :=
  hasSub (s.data.map Char.toLower) (pat.data.map Char.toLower)

/-- `extractUserActions` of `github-analyzer.ts`. -/
def extractUserActions (content : String) : List String :=
  let actions :=
    (if strContains content "<button" || strContains content "onClick"
      then ["Click actions"] else []) ++
    (if strContains content "<form" || strContains content "onSubmit"
      then ["Form submission"] else []) ++
    (if strContainsCI content "input" || strContainsCI content "textarea" ||
        strContainsCI content "select" then ["Data entry"] else []) ++
    (if strContainsCI content "search" || strContainsCI content "filter"
      then ["Search/Filter"] else []) ++
    (if strContainsCI content "login" || strContainsCI content "signin" ||
        strContainsCI content "authenticate" then ["Authentication"] else []) ++
    (if strContainsCI content "cart" || strContainsCI content "checkout" ||
        strContainsCI content "purchase" || strContainsCI content "buy"
      then ["Shopping"] else []) ++
    (if strContainsCI content "upload" || strContainsCI content "file"
      then ["File upload"] else []) ++
    (if strContainsCI content "share" || strContainsCI content "social"
      then ["Social sharing"] else [])
  if actions.length > 0 then actions else ["View content"]

/-- `extractEntryPoints` of `github-analyzer.ts`. -/
def extractEntryPoints (content routePath : String) : List String :=
  let entryPoints :=
    (if routePath = "/" then ["Direct URL", "Search engines"] else []) ++
    (if strContainsCI content "login" || strContainsCI content "signin"
      then ["Authentication flow"] else []) ++
    (if strContainsCI content "dashboard" || strContainsCI content "profile"
      then ["User area"] else []) ++
    (if strContainsCI content "product" || strContainsCI content "item" ||
        strContainsCI content "detail" then ["Product links"] else []) ++
    (if strContainsCI content "search" || strContainsCI content "results"
      then ["Search results"] else [])
  if entryPoints.length > 0 then entryPoints else ["Navigation"]

/-- `componentName.replace(/Page$|Screen$|View$/, '')` — case-sensitive,
first alternative wins. -/
def stripDisplaySuffix (name : String) : String :=
  ⟨if "Page".data.reverse.isPrefixOf name.data.reverse then
      name.data.take (name.data.length - 4)
    else if "Screen".data.reverse.isPrefixOf name.data.reverse then
      name.data.take (name.data.length - 6)
    else if "View".data.reverse.isPrefixOf name.data.reverse then
      name.data.take (name.data.length - 4)
    else name.data⟩

/-- `lower.replace(/page$|screen$|view$/, '')` — the lowercase variant used
for the name-derived route. -/
def stripLowerSuffix (l : List Char) : List Char :=
  if "page".data.reverse.isPrefixOf l.reverse then l.take (l.length - 4)
  else if "screen".data.reverse.isPrefixOf l.reverse then l.take (l.length - 6)
  else if "view".data.reverse.isPrefixOf l.reverse then l.take (l.length - 4)
  else l

/-- `generatePageDescription` of `github-analyzer.ts`. -/
def generatePageDescription (componentName : String)
    (hasAuth hasForm hasAPI : Bool) : String :=
  stripDisplaySuffix componentName ++ " page" ++
  (if hasForm then " with form functionality" else "") ++
  (if hasAuth then " requiring authentication" else "") ++
  (if hasAPI then " with data integration" else "")

/-! ## Route-path extraction (`extractRoutePath`) -/

/-- At a position right after a `[`, try to take the regex match
`[^\]]+\]`: the (non-empty) run of non-`]` characters and the closing `]`.
Returns the inner run and the remainder after the `]`. -/
def grabSeg (l : List Char) : Option (List Char × List Char) :=
  match l.dropWhile (· ≠ ']') with
  | ']' :: after =>
    let inner := l.takeWhile (· ≠ ']')
    if inner.isEmpty then none else some (inner, after)
  | _ => none

/-- Fuel-driven scan implementing the global replace
`.replace(/\[([^\]]+)\]/g, ':$1')`: each match `[x]` becomes `:x`, scanning
resumes after the match; positions where the pattern does not match are
copied unchanged. `fuel ≥ l.length` makes the scan complete. -/
def rwbAux : Nat → List Char → List Char
  | 0, l => l
  | _ + 1, [] => []
  | fuel + 1, c :: rest =>
    if c = '[' then
      match grabSeg rest with
      | some (inner, after) => ':' :: inner ++ rwbAux fuel after
      | none => c :: rwbAux fuel rest
    else c :: rwbAux fuel rest

/-- `.replace(/\[([^\]]+)\]/g, ':$1')` on a character list. -/
def rwBrackets (l : List Char) : List Char := rwbAux l.length l

/-- `.replace(/\.tsx?$/, '')`. -/
def dropTsSuffix (l : List Char) : List Char :=
  if ".tsx".data.reverse.isPrefixOf l.reverse then l.take (l.length - 4)
  else if ".ts".data.reverse.isPrefixOf l.reverse then l.take (l.length - 3)
  else l

/-- `extractRoutePath` of `github-analyzer.ts`. The `/pages/` branch takes
JS `filePath.split('/pages/')[1]` — the segment between the first and
second occurrence — and falls through to the name-derived route when that
segment is the empty string (JS falsiness). -/
def extractRoutePath (filePath componentName : String) : String :=
  let viaPath : Option String :=
    match afterFirst filePath.data "/pages/".data with
    | some rest =>
      let pathPart := upToFirst rest "/pages/".data
      if pathPart.isEmpty then none
      else
        let r := rwBrackets (dropSuffix (dropTsSuffix pathPart) "/index".data)
        let route : List Char := '/' :: r
        if route = ['/'] then some "/"
        else some ⟨dropTrailingSlash route⟩
    | none => none
  match viaPath with
  | some r => r
  | none =>
    if lowerStr componentName = "home" || lowerStr componentName = "homepage"
    then "/"
    else ⟨'/' :: stripLowerSuffix (lowerStr componentName).data⟩

/-! ## Classification (`detectPageFlows`) -/

/-- The page-level gate of `detectPageFlows`: a declaration is processed only
if the file path contains a pages/routes/app segment or the lowercased name
contains `page`/`screen`/`view`. -/
def pageGate (low : List Char) (filePath : String) : Bool :=
  strContains filePath "/pages/" || strContains filePath "/routes/" ||
  strContains filePath "/app/" || hasSub low "page".data ||
  hasSub low "screen".data || hasSub low "view".data

/-- The keyword classification of `detectPageFlows`:
layout/wrapper, then modal/dialog, then redirect, else page. -/
def classifyType (low : List Char) : PageType :=
  if hasSub low "layout".data || hasSub low "wrapper".data then .layout
  else if hasSub low "modal".data || hasSub low "dialog".data then .modal
  else if hasSub low "redirect".data then .redirect
  else .page

/-- The node id template literal `` `${componentName.toLowerCase()}-${index}` ``. -/
def idString (low : List Char) (index : Nat) : String :=
  ⟨low ++ '-' :: natDecChars index⟩

/-- The body of the `matches.forEach((match, index) => …)` callback in
`detectPageFlows`, for one regex match: `index` is the match ordinal within
the file, `componentName` the captured `\w+` group. Returns `none` when the
capture is empty (JS falsiness guard) or the page gate rejects it. -/
def detectEntry (index : Nat) (componentName content filePath : String) :
    Option PageFlow :=
  if componentName = "" then none
  else
    let low := (lowerStr componentName).data
    if pageGate low filePath then
      let routePath := extractRoutePath filePath componentName
      let hasAuth := hasAuthB content
      some
        { id := idString low index
          name := stripDisplaySuffix componentName
          path := routePath
          filePath := filePath
          type := classifyType low
          connections := []
          position := none
          metadata :=
            { title := stripDisplaySuffix componentName
              description := generatePageDescription componentName hasAuth
                (hasFormB content) (hasAPIB content)
              hasAuth := hasAuth
              hasParams := hasParamsB content
              isProtected := isProtectedB content
              complexity := complexityOf content
              userActions := extractUserActions content
              entryPoints := extractEntryPoints content routePath } }
    else none

/-- `detectPageFlows(content, filePath)`. The component regex is abstracted
to its outcome: `names` is the ordered list of captured component names (one
per regex match, in match order); everything after the matching step is
embedded concretely. -/
def detectPageFlows (names : List String) (content filePath : String) :
    List PageFlow :=
  names.enum.filterMap fun p => detectEntry p.1 p.2 content filePath

/-! ## The scan and connection passes (`analyzePageFlows`) -/

/-- One candidate file delivered by the directory walk of
`analyzePageFlows.scanDirectory`, in scan order: its GitHub `name`, full
`path`, fetched `content`, and the ordered component-name captures of the
detection regex on that content (the same abstraction as in
`detectPageFlows`). The walk itself (directory recursion over `src`,
`pages`, `app`, `components`, and the `.tsx`/`.jsx` + `download_url`
filter) is abstracted to the ordered list of files it yields. -/
structure ScannedFile where
  name : String
  path : String
  content : String
  names : List String
deriving DecidableEq, Repr

/-- The `isPageFile` test of `analyzePageFlows`: only files under a
pages/routes/app segment, or with `page` in the lowercased file name, are
analyzed. -/
def isPageFile (f : ScannedFile) : Bool :=
  strContains f.path "/pages/" || strContains f.path "/routes/" ||
  strContains f.path "/app/" || strContains (lowerStr f.name) "page"

/-- Pass 1 of `analyzePageFlows`: the node list accumulated over the scan
(`pages.push(...pageFlows)` per page-level file, in scan order). -/
def scanPages (files : List ScannedFile) : List PageFlow :=
  files.flatMap fun f =>
    if isPageFile f then detectPageFlows f.names f.content f.path else []

/-- The route entries pushed during pass 1: one per detected node of kind
`page`, with auth guard / id param flags from the node metadata. -/
def scanRoutes (files : List ScannedFile) : List RouteInfo :=
  files.flatMap fun f =>
    if isPageFile f then
      (detectPageFlows f.names f.content f.path).filterMap fun pg =>
        if pg.type = .page then
          some { path := pg.path
                 component := pg.name
                 filePath := pg.filePath
                 guards := if pg.metadata.isProtected then some ["auth"] else none
                 params := if pg.metadata.hasParams then some ["id"] else none }
        else none
    else []

/-- Pass 2, for one node: the raw references extracted from the re-fetched
file text are resolved against the node set — a raw reference becomes a
connection only when some node's route path equals it, and the stored
target is that node's `id`. `fetchTwo` abstracts the raw-content re-fetch
(`raw.githubusercontent.com`), `extract` the `extractPageConnections`
regex collector; resolution only reads the immutable `path`/`id` fields of
the node set, so the JS in-place mutation is equivalent to this per-node
map. -/
def resolveOne (pages : List PageFlow) (fetchTwo : String → String)
    (extract : String → List PageConnection) (pg : PageFlow) : PageFlow :=
  { pg with
    connections := pg.connections ++
      (extract (fetchTwo pg.filePath)).filterMap fun c =>
        (pages.find? fun p => p.path = c.targetPageId).map fun t =>
          { c with targetPageId := t.id } }

/-- `analyzePageFlows`: pass 1 builds the node and route lists, pass 2
resolves each node's outgoing references against the full node set. -/
def analyzePageFlows (files : List ScannedFile) (fetchTwo : String → String)
    (extract : String → List PageConnection) :
    List PageFlow × List RouteInfo :=
  let pages := scanPages files
  (pages.map (resolveOne pages fetchTwo extract), scanRoutes files)

/-! ## Journey synthesis (`generateUserJourneys`) -/

/-- `p.path === '/' || p.name.toLowerCase().includes('home')`. -/
def homeLike (p : PageFlow) : Bool :=
  p.path = "/" || strContains (lowerStr p.name) "home"

/-- `p.path.includes('login') || p.name.toLowerCase().includes('login')`. -/
def loginLike (p : PageFlow) : Bool :=
  strContains p.path "login" || strContains (lowerStr p.name) "login"

/-- `p.path.includes('dashboard') || p.name.toLowerCase().includes('dashboard')`. -/
def dashboardLike (p : PageFlow) : Bool :=
  strContains p.path "dashboard" || strContains (lowerStr p.name) "dashboard"

/-- `generateUserJourneys` of `github-analyzer.ts`. -/
def generateUserJourneys (pages : List PageFlow) : List UserJourney :=
  let homePage := pages.find? homeLike
  let loginPage := pages.find? loginLike
  let dashboardPage := pages.find? dashboardLike
  (match homePage, loginPage with
   | some h, some l =>
     [{ id := "guest-onboarding"
        name := "New User Onboarding"
        description := "First-time visitor discovers the app and creates an account"
        steps := [h, l]
        startPage := h.id
        endPage := match dashboardPage with | some d => d.id | none => l.id
        userType := .guest }]
   | _, _ => []) ++
  (match dashboardPage with
   | some d =>
     [{ id := "authenticated-user"
        name := "Authenticated User Flow"
        description := "Returning user accesses their account and performs tasks"
        steps := [d]
        startPage := d.id
        endPage := d.id
        userType := .authenticated }]
   | none => [])

/-! ## Repository identifier parsing (`parseGitHubUrl`) -/

/-- After `github.com/`, parse `([^/]+)/([^/]+)(?:\/tree\/([^/]+))?`:
greedy owner and name segments, then an optional `/tree/branch` suffix
(the optional group only matches when the branch segment is non-empty). -/
def parseOwnerName (l : List Char) :
    Option (List Char × List Char × Option (List Char)) :=
  let owner := l.takeWhile (· ≠ '/')
  if owner.isEmpty then none
  else
    match l.dropWhile (· ≠ '/') with
    | '/' :: rest =>
      let nm := rest.takeWhile (· ≠ '/')
      if nm.isEmpty then none
      else
        let rest' := rest.dropWhile (· ≠ '/')
        let branch :=
          if "/tree/".data.isPrefixOf rest' then
            let b := (rest'.drop 6).takeWhile (· ≠ '/')
            if b.isEmpty then none else some b
          else none
        some (owner, nm, branch)
    | _ => none

/-- Leftmost regex search for
`github\.com\/([^/]+)\/([^/]+)(?:\/tree\/([^/]+))?`: at each position try
the literal `github.com/` and the group structure; on failure advance one
character, as a JS regex engine does. -/
def findRepoRef : List Char → Option (List Char × List Char × Option (List Char))
  | [] => none
  | c :: t =>
    if "github.com/".data.isPrefixOf (c :: t) then
      match parseOwnerName ((c :: t).drop 11) with
      | some r => some r
      | none => findRepoRef t
    else findRepoRef t

/-- `parseGitHubUrl` of `github-analyzer.ts`: trim, drop one trailing
slash, match the repository URL shape; branch defaults to `main` via
`match[3] || 'main'`. -/
def parseGitHubUrl (url : String) : Option GitHubRepo :=
  match findRepoRef (dropTrailingSlash (trimList url.data)) with
  | some (o, nm, br) =>
    some { url := ⟨dropTrailingSlash (trimList url.data)⟩, owner := ⟨o⟩,
           name := ⟨nm⟩,
           branch := match br with | some b => ⟨b⟩ | none => "main" }
  | none => none

/-! ## Transport (`fetchWithRetry`, `fetchRepoContents`) -/

/-- One JSON entry of a GitHub contents listing (`item` in
`fetchRepoContents`); `typ` is the raw `type` string. -/
structure GitHubItem where
  name : String
  path : String
  typ : String
  download_url : Option String
deriving DecidableEq, Repr

/-- `GitHubFile` of `github-analyzer.ts` (`type` normalized to
`dir`/`file`). -/
inductive FileKind where
  | file | dir
deriving DecidableEq, Repr

/-- A mapped contents entry. -/
structure GitHubFile where
  name : String
  path : String
  type : FileKind
  download_url : Option String
deriving DecidableEq, Repr

/-- A host response: status, the parsed `X-RateLimit-Reset` header when
present, the JSON body when it is an array of contents entries, and the
raw text body. -/
structure HttpResponse where
  status : Nat
  rateLimitReset : Option Nat := none
  items : Option (List GitHubItem) := none
  text : String := ""
deriving DecidableEq, Repr

/-- The outcome of one `fetch` call: a response, or a network-level
exception. -/
inductive NetAttempt where
  | ok (r : HttpResponse)
  | netError (msg : String)
deriving DecidableEq, Repr

/-- The error taxonomy thrown by `fetchWithRetry`: 403 → rate limited
(carrying the parsed reset header), 404 → repository not found, any other
non-2xx status → host error, plus network-level failures. -/
inductive FetchError where
  | rateLimited (reset : Option Nat)
  | notFound
  | hostError (status : Nat)
  | network (msg : String)
deriving DecidableEq, Repr

/-- The `Error` message text of each failure, as built in
`fetchWithRetry`. `fmtReset` abstracts
`new Date(reset * 1000).toLocaleTimeString()` (and the current-time
fallback when the header is absent). -/
def FetchError.message (fmtReset : Option Nat → String) : FetchError → String
  | .rateLimited r => "GitHub API rate limit exceeded. Resets at " ++ fmtReset r
  | .notFound =>
    "Repository not found. Please check the URL and ensure the repository is public."
  | .hostError s => "GitHub API error: " ++ natDec s
  | .network m => m

/-- The status dispatch inside the `try` block of one attempt: a thrown
error (for 403, 404, other non-2xx, or a network failure) or the
response. -/
def attemptOutcome : NetAttempt → Except FetchError HttpResponse
  | .netError m => .error (.network m)
  | .ok r =>
    if r.status = 403 then .error (.rateLimited r.rateLimitReset)
    else if r.status = 404 then .error .notFound
    else if 200 ≤ r.status ∧ r.status < 300 then .ok r
    else .error (.hostError r.status)

/-- Result of the retry loop: the surfaced outcome, the sleeps performed
(in ms, `1000 * (i + 1)` after failed attempt `i`), and the number of
attempts issued. -/
structure RetryResult where
  result : Except FetchError HttpResponse
  delays : List Nat
  attemptsUsed : Nat
deriving Repr

/-- The `for (let i = 0; i <= retries; i++)` loop of `fetchWithRetry`:
every thrown error — the 403 and 404 throws included, since they are
raised inside the `try` block — is caught; if attempts remain the loop
sleeps `1000 * (i + 1)` ms and retries, otherwise the last error
surfaces. -/
def fetchRetryGo (att : Nat → NetAttempt) : Nat → Nat → RetryResult
  | i, 0 =>
    match attemptOutcome (att i) with
    | .ok r => ⟨.ok r, [], i + 1⟩
    | .error e => ⟨.error e, [], i + 1⟩
  | i, rem + 1 =>
    match attemptOutcome (att i) with
    | .ok r => ⟨.ok r, [], i + 1⟩
    | .error _ =>
      let rr := fetchRetryGo att (i + 1) rem
      ⟨rr.result, 1000 * (i + 1) :: rr.delays, rr.attemptsUsed⟩

/-- `fetchWithRetry(url)` with the default `retries = 2`, over the
attempt sequence `att` for that URL. -/
def fetchWithRetry (att : Nat → NetAttempt) : RetryResult :=
  fetchRetryGo att 0 2

/-- The contents-API URL built in `fetchRepoContents`. -/
def contentsUrl (repo : GitHubRepo) (path : String) : String :=
  "https://api.github.com/repos/" ++ repo.owner ++ "/" ++ repo.name ++
  "/contents/" ++ path ++ "?ref=" ++ repo.branch

/-- `fetchRepoContents` of `github-analyzer.ts`: one `fetchWithRetry` on
the contents URL for the parsed branch; a non-array JSON body yields `[]`;
errors propagate. `host` maps a URL to its attempt sequence. Also returns
the list of URLs requested (one per attempt), to make the absence of any
branch-fallback request provable. -/
def fetchRepoContents (host : String → Nat → NetAttempt) (repo : GitHubRepo)
    (path : String) : Except FetchError (List GitHubFile) × List String :=
  let url := contentsUrl repo path
  let r := fetchWithRetry (host url)
  (r.result.map fun resp =>
      match resp.items with
      | some l => l.map fun it =>
          { name := it.name, path := it.path
            type := if it.typ = "dir" then .dir else .file
            download_url := it.download_url }
      | none => [],
   List.replicate r.attemptsUsed url)

/-! ## The Fallback Provider dataset (`DEMO_ANALYSIS`)

The module-level constant, transcribed from `github-analyzer.ts`. The
fallback paths of `analyzeGitHubRepo` mutate exactly one thing through the
shallow-copied result: the first page's `metadata.description`. That cell
is therefore the explicit state of the model: `demoPages desc0` is the
`pages` array with the first description currently holding `desc0`, and
`DEMO_HOME_DESC` is its initial (authored) value. `DEMO_ANALYSIS` is
parameterized by the module-load timestamp (`new Date().toISOString()`). -/

/-- The authored description of the first demo page. -/
def DEMO_HOME_DESC : String :=
  "Landing page with hero section and featured products"

/-- The `pages` array of `DEMO_ANALYSIS`, with the first page's
description — the mutable cell — abstracted as `desc0`. -/
def demoPages (desc0 : String) : List PageFlow :=
  [{ id := "home", name := "Home", path := "/",
     filePath := "src/pages/HomePage.tsx", type := .page,
     connections :=
       [⟨"products", .navigation, "Shop Now button", none⟩,
        ⟨"login", .navigation, "Login link", none⟩,
        ⟨"signup", .navigation, "Sign Up button", none⟩],
     position := some (100, 200),
     metadata :=
       { title := "Home Page", description := desc0,
         hasAuth := false, hasParams := false, isProtected := false,
         complexity := .medium,
         userActions := ["Browse products", "Sign up", "Login"],
         entryPoints := ["Direct URL", "Search engines", "Social media"] } },
   { id := "products", name := "Products", path := "/products",
     filePath := "src/pages/ProductsPage.tsx", type := .page,
     connections :=
       [⟨"product-detail", .navigation, "Product card click", none⟩,
        ⟨"cart", .navigation, "Add to cart", none⟩,
        ⟨"login", .conditional, "Wishlist action", some "not authenticated"⟩],
     position := some (500, 200),
     metadata :=
       { title := "Product Catalog",
         description := "Browse and filter products with search functionality",
         hasAuth := false, hasParams := true, isProtected := false,
         complexity := .high,
         userActions := ["Filter products", "Search", "Add to cart", "View details"],
         entryPoints := ["Home page", "Search results", "Category links"] } },
   { id := "product-detail", name := "Product Detail", path := "/products/:id",
     filePath := "src/pages/ProductDetailPage.tsx", type := .page,
     connections :=
       [⟨"cart", .navigation, "Add to cart button", none⟩,
        ⟨"checkout", .navigation, "Buy now button", none⟩,
        ⟨"products", .navigation, "Back to products", none⟩],
     position := some (900, 200),
     metadata :=
       { title := "Product Details",
         description := "Detailed product view with images, specs, and reviews",
         hasAuth := false, hasParams := true, isProtected := false,
         complexity := .medium,
         userActions := ["View images", "Read reviews", "Add to cart", "Share product"],
         entryPoints := ["Product list", "Search results", "Direct link"] } },
   { id := "login", name := "Login", path := "/login",
     filePath := "src/pages/LoginPage.tsx", type := .page,
     connections :=
       [⟨"dashboard", .redirect, "Successful login", some "valid credentials"⟩,
        ⟨"signup", .navigation, "Create account link", none⟩,
        ⟨"forgot-password", .navigation, "Forgot password link", none⟩],
     position := some (100, 500),
     metadata :=
       { title := "User Login",
         description := "Authentication form for existing users",
         hasAuth := true, hasParams := false, isProtected := false,
         complexity := .medium,
         userActions := ["Enter credentials", "Remember me", "Forgot password"],
         entryPoints := ["Header link", "Protected page redirect", "Checkout flow"] } },
   { id := "signup", name := "Sign Up", path := "/signup",
     filePath := "src/pages/SignUpPage.tsx", type := .page,
     connections :=
       [⟨"dashboard", .redirect, "Account created", some "valid form"⟩,
        ⟨"login", .navigation, "Already have account link", none⟩],
     position := some (500, 500),
     metadata :=
       { title := "Create Account",
         description := "Registration form for new users",
         hasAuth := true, hasParams := false, isProtected := false,
         complexity := .high,
         userActions := ["Fill form", "Verify email", "Accept terms"],
         entryPoints := ["Home page CTA", "Login page", "Checkout flow"] } },
   { id := "dashboard", name := "Dashboard", path := "/dashboard",
     filePath := "src/pages/DashboardPage.tsx", type := .page,
     connections :=
       [⟨"profile", .navigation, "Profile link", none⟩,
        ⟨"orders", .navigation, "Order history", none⟩,
        ⟨"products", .navigation, "Continue shopping", none⟩],
     position := some (900, 500),
     metadata :=
       { title := "User Dashboard",
         description := "Personalized user area with account overview",
         hasAuth := true, hasParams := false, isProtected := true,
         complexity := .medium,
         userActions := ["View orders", "Update profile", "Manage preferences"],
         entryPoints := ["Login redirect", "Header link (authenticated)"] } },
   { id := "cart", name := "Shopping Cart", path := "/cart",
     filePath := "src/pages/CartPage.tsx", type := .page,
     connections :=
       [⟨"checkout", .navigation, "Proceed to checkout", none⟩,
        ⟨"products", .navigation, "Continue shopping", none⟩,
        ⟨"login", .conditional, "Checkout", some "not authenticated"⟩],
     position := some (100, 800),
     metadata :=
       { title := "Shopping Cart",
         description := "Review items before checkout",
         hasAuth := false, hasParams := false, isProtected := false,
         complexity := .medium,
         userActions := ["Update quantities", "Remove items", "Apply coupons"],
         entryPoints := ["Add to cart action", "Header cart icon"] } },
   { id := "checkout", name := "Checkout", path := "/checkout",
     filePath := "src/pages/CheckoutPage.tsx", type := .page,
     connections :=
       [⟨"order-success", .redirect, "Payment success", some "payment processed"⟩,
        ⟨"cart", .navigation, "Back to cart", none⟩],
     position := some (500, 800),
     metadata :=
       { title := "Checkout",
         description := "Payment and shipping information form",
         hasAuth := true, hasParams := false, isProtected := true,
         complexity := .high,
         userActions := ["Enter shipping", "Select payment", "Review order"],
         entryPoints := ["Cart page", "Buy now button"] } },
   { id := "order-success", name := "Order Success", path := "/order/success",
     filePath := "src/pages/OrderSuccessPage.tsx", type := .page,
     connections :=
       [⟨"dashboard", .navigation, "View order details", none⟩,
        ⟨"products", .navigation, "Continue shopping", none⟩],
     position := some (900, 800),
     metadata :=
       { title := "Order Confirmation",
         description := "Success page after completed purchase",
         hasAuth := true, hasParams := true, isProtected := true,
         complexity := .low,
         userActions := ["View order details", "Download receipt", "Continue shopping"],
         entryPoints := ["Checkout completion"] } }]

/-- The `routes` array of `DEMO_ANALYSIS`. -/
def demoRoutes : List RouteInfo :=
  [{ path := "/", component := "HomePage",
     filePath := "src/pages/HomePage.tsx" },
   { path := "/products", component := "ProductsPage",
     filePath := "src/pages/ProductsPage.tsx" },
   { path := "/products/:id", component := "ProductDetailPage",
     filePath := "src/pages/ProductDetailPage.tsx", params := some ["id"] },
   { path := "/login", component := "LoginPage",
     filePath := "src/pages/LoginPage.tsx" },
   { path := "/signup", component := "SignUpPage",
     filePath := "src/pages/SignUpPage.tsx" },
   { path := "/dashboard", component := "DashboardPage",
     filePath := "src/pages/DashboardPage.tsx", guards := some ["auth"] },
   { path := "/cart", component := "CartPage",
     filePath := "src/pages/CartPage.tsx" },
   { path := "/checkout", component := "CheckoutPage",
     filePath := "src/pages/CheckoutPage.tsx", guards := some ["auth"] },
   { path := "/order/success", component := "OrderSuccessPage",
     filePath := "src/pages/OrderSuccessPage.tsx", guards := some ["auth"] }]

/-- The `userJourneys` array of `DEMO_ANALYSIS`. -/
def demoJourneys : List UserJourney :=
  [{ id := "guest-purchase", name := "Guest Purchase Flow",
     description := "New visitor discovers and purchases a product",
     steps := [], startPage := "home", endPage := "order-success",
     userType := .guest },
   { id := "returning-user", name := "Returning User Journey",
     description := "Authenticated user browses and makes repeat purchase",
     steps := [], startPage := "dashboard", endPage := "order-success",
     userType := .authenticated }]

/-- `DEMO_ANALYSIS`, as a function of the module-load timestamp and the
current value of the mutable first-page description. -/
def DEMO_ANALYSIS (loadTime desc0 : String) : FlowAnalysisResult :=
  { repoUrl := "https://github.com/demo/react-ecommerce"
    repoName := "react-ecommerce"
    pages := demoPages desc0
    routes := demoRoutes
    userJourneys := demoJourneys
    totalFiles := 45
    analyzedFiles := 12
    timestamp := loadTime }

/-! ## Top-level analysis (`analyzeGitHubRepo`) -/

/-- The ambient effects of one `analyzeGitHubRepo` invocation:
the attempt sequence of the repository existence probe, the candidate
files the directory walk yields with the walk's file counters, the
connection-pass content fetch and reference extractor, the run's
`new Date().toISOString()` value, the time formatter of the rate-limit
message, and the module-load timestamp baked into `DEMO_ANALYSIS`. -/
structure AnalyzeWorld where
  probeAttempts : Nat → NetAttempt
  scanFiles : List ScannedFile
  fetchTwo : String → String
  extract : String → List PageConnection
  totalFiles : Nat
  analyzedFiles : Nat
  now : String
  fmtReset : Option Nat → String
  loadTime : String

/-- The fixed description written through the alias in the inner (probe
failure) fallback branch. -/
def demoModeShortDesc : String :=
  "⚠️ Demo data - GitHub API unavailable. This shows sample page flow analysis."

/-- The error message of an invalid repository URL. -/
def invalidUrlMsg : String :=
  "Invalid GitHub URL. Please provide a valid GitHub repository URL."

/-- The body of the outer `try` of `analyzeGitHubRepo`: parse the URL,
probe the repository, and on probe failure mutate the demo dataset's
first-page description (through the shallow-copied result) and rethrow a
wrapped message; on success run the two-pass analysis and assemble the
result. The `String` state is the current value of the module-level
`DEMO_ANALYSIS` first-page description. -/
def analyzeTryBody (w : AnalyzeWorld) (url : String) (st : String) :
    Except String FlowAnalysisResult × String :=
  match parseGitHubUrl url with
  | none => (.error invalidUrlMsg, st)
  | some repo =>
    match (fetchWithRetry w.probeAttempts).result with
    | .error e =>
      let st1 := if (demoPages st).length > 0 then demoModeShortDesc else st
      (.error ("GitHub API unavailable (" ++ e.message w.fmtReset ++
        "). Showing demo visualization instead."), st1)
    | .ok _ =>
      let a := analyzePageFlows w.scanFiles w.fetchTwo w.extract
      (.ok { repoUrl := url
             repoName := repo.name
             pages := a.1
             routes := a.2
             userJourneys := generateUserJourneys a.1
             totalFiles := w.totalFiles
             analyzedFiles := w.analyzedFiles
             timestamp := w.now }, st)

/-- `analyzeGitHubRepo(url)`: the outer `catch` returns the demo dataset
(with `repoUrl`/`repoName`/`timestamp` overwritten and the first-page
description rewritten through the aliased `pages` array) whenever the
caught message contains `'rate limit'` or `'API'`, and rethrows
otherwise. -/
def analyzeGitHubRepo (w : AnalyzeWorld) (url : String) (st : String) :
    Except String FlowAnalysisResult × String :=
  match analyzeTryBody w url st with
  | (.ok r, st') => (.ok r, st')
  | (.error m, st') =>
    if strContains m "rate limit" || strContains m "API" then
      let nm :=
        match parseGitHubUrl url with
        | some repo => if repo.name = "" then "demo-repo" else repo.name
        | none => "demo-repo"
      let newDesc := "⚠️ " ++ m ++ ". Showing demo visualization instead."
      let st'' := if (demoPages st').length > 0 then newDesc else st'
      (.ok { DEMO_ANALYSIS w.loadTime st'' with
             repoUrl := url, repoName := nm, timestamp := w.now }, st'')
    else (.error m, st')

/-! ## Spec-side complexity model (for the refinement comparison of C2) -/

/-- Non-overlapping occurrence count of `pat` in `l` (leftmost matches,
scanning resumes after each match), fuel-driven for kernel evaluation. -/
def countOccsAux : Nat → List Char → List Char → Nat
  | 0, _, _ => 0
  | _ + 1, [], _ => 0
  | fuel + 1, c :: t, pat =>
    if pat.isPrefixOf (c :: t) then
      1 + countOccsAux fuel ((c :: t).drop pat.length) pat
    else countOccsAux fuel t pat

/-- Occurrence count of `pat` in `s`. -/
def countOccs (s pat : String) : Nat :=
  countOccsAux s.data.length s.data pat.data

/-- Modelled from the spec: the "fixed hook-name list" of the spec's
complexity score, instantiated with the standard React hook names (the
spec names the list but not its elements). -/
def specHookList : List String :=
  ["useState", "useEffect", "useContext", "useReducer", "useCallback",
   "useMemo", "useRef"]

/-- Modelled from the spec: the additive complexity score the spec
describes — +1 per occurrence of each listed hook name, +1 per
ternary-conditional occurrence, +1 per collection-transform call
occurrence, +1 per inline event-handler attribute occurrence, +2 per
network-call pattern occurrence, +2 if line count > 100 and +1 more if
line count > 200 — with each textual pattern category instantiated by
representative literal signatures. No such additive score exists in the
source; this definition follows the spec's words for comparison. -/
def specComplexityScore (content : String) : Nat :=
  ((specHookList.map (countOccs content)).sum) +
  countOccs content " ? " +
  (countOccs content ".map(" + countOccs content ".filter(" +
    countOccs content ".reduce(") +
  (countOccs content "onClick=" + countOccs content "onChange=" +
    countOccs content "onSubmit=") +
  2 * (countOccs content "fetch(" + countOccs content "axios." +
    countOccs content ".get(" + countOccs content ".post(") +
  (if 100 < (splitLines content.data).length then 2 else 0) +
  (if 200 < (splitLines content.data).length then 1 else 0)

/-- Modelled from the spec: the claimed thresholds — score ≤ 3 ⇒ `low`,
≤ 8 ⇒ `medium`, else `high`. -/
def specComplexityBucket (score : Nat) : Complexity :=
  if score ≤ 3 then .low else if score ≤ 8 then .medium else .high

/-! ## Well-bracketed paths (for the route-path bracket analysis) -/

/-- Fuel-driven check that every bracket character of `l` occurs inside a
well-formed dynamic segment `[x]` (`x` non-empty, containing neither `[`
nor `]`): scanning left to right, a bare `]` or an unclosable `[` fails,
and a matched segment must have a bracket-free body. `fuel ≥ l.length`
makes the scan complete. -/
def wellBracketedAux : Nat → List Char → Bool
  | 0, l => l.isEmpty
  | _ + 1, [] => true
  | fuel + 1, c :: rest =>
    if c = '[' then
      match grabSeg rest with
      | some (inner, after) => !inner.contains '[' && wellBracketedAux fuel after
      | none => false
    else if c = ']' then false
    else wellBracketedAux fuel rest

/-- Every bracket of `l` occurs inside a well-formed `[x]` segment. -/
def wellBracketed (l : List Char) : Bool := wellBracketedAux l.length l

/-! ## Concrete inputs used by counterexamples and witnesses -/

/-- A candidate file body with class-component signal strings
(`this.state`, `componentDidMount`) and no hook, ternary,
collection-transform, inline-handler or network-call occurrence. -/
def c2Content : String :=
  "export function TestPage() \x7b return (<div>this.state componentDidMount</div>) \x7d"

/-- The node detected in `c2Content`. -/
def c2Page : PageFlow :=
  (detectEntry 0 "TestPage" c2Content "src/pages/Test.tsx").get (by decide)

/-- An attempt sequence whose first response is rate limited (403) and
whose second succeeds. -/
def c3Attempts : Nat → NetAttempt := fun i =>
  if i = 0 then .ok { status := 403, rateLimitReset := some 1700000000 }
  else .ok { status := 200 }

/-- An attempt sequence that always yields a 500 host error. -/
def c3FailAttempts : Nat → NetAttempt := fun _ => .ok { status := 500 }

/-- The parsed reference of `https://github.com/octo/proj` (branch
defaulted to `main`). -/
def c5Repo : GitHubRepo :=
  { url := "https://github.com/octo/proj", owner := "octo", name := "proj",
    branch := "main" }

/-- The same reference on branch `master`. -/
def c5RepoMaster : GitHubRepo := { c5Repo with branch := "master" }

/-- A host that reports the tree missing (404) under `main` but would
serve a one-entry tree under `master`. -/
def c5Host : String → Nat → NetAttempt := fun url _ =>
  if url = contentsUrl c5Repo "" then .ok { status := 404 }
  else if url = contentsUrl c5RepoMaster "" then
    .ok { status := 200,
          items := some [{ name := "src", path := "src", typ := "dir",
                           download_url := none }] }
  else .netError "unexpected url"

/-- Two scanned files that both export a component named `HomePage` (each
at match ordinal 0 in its own file). -/
def c6FileA : ScannedFile :=
  { name := "Home.tsx", path := "src/pages/Home.tsx",
    content := "export function HomePage() \x7b return (<main>A</main>) \x7d",
    names := ["HomePage"] }

/-- Second file, distinct path, same exported component name. -/
def c6FileB : ScannedFile :=
  { name := "Start.tsx", path := "src/pages/Start.tsx",
    content := "export function HomePage() \x7b return (<main>B</main>) \x7d",
    names := ["HomePage"] }

/-- A reference extractor yielding one raw reference that matches the
first detected node's route path (`/Home`, the route derived from
`src/pages/Home.tsx`) and one that matches no node (`/missing`). -/
def c1Extract : String → List PageConnection := fun _ =>
  [⟨"/Home", .navigation, "Home link click", none⟩,
   ⟨"/missing", .navigation, "Nowhere click", none⟩]

/-- The node set of the two-file analysis run against `c1Extract`. -/
def c1Result : List PageFlow :=
  (analyzePageFlows [c6FileA, c6FileB] (fun _ => "") c1Extract).1

/-- The first node of `c1Result`. -/
def c1Page : PageFlow := c1Result.head (by decide)

/-- The resolved connection carried by each node of `c1Result`: the
`/Home` reference resolved to the first node's id. -/
def c1Conn : PageConnection :=
  ⟨"homepage-0", .navigation, "Home link click", none⟩

/-- A pages path holding one well-formed dynamic segment `[id]` and one
stray bracket pair `[]`. -/
def c7Path : String := "src/pages/[id]/a[].tsx"

/-- A layout-named declaration in a file outside any pages/routes/app
segment. -/
def c8Content : String :=
  "export function MainLayout() \x7b return (<div>shell</div>) \x7d"

/-- The node detected for a declaration named `DashboardPageLayout` (both
`page` and `layout` keywords match; the gate passes via `page`). -/
def c8Page : PageFlow :=
  (detectEntry 0 "DashboardPageLayout" "" "src/components/X.tsx").get (by decide)

/-- A world whose repository probe always returns 404 and whose remaining
effects are inert; used to drive the fallback path concretely. -/
def c4World : AnalyzeWorld :=
  { probeAttempts := fun _ => .ok { status := 404 }
    scanFiles := []
    fetchTwo := fun _ => ""
    extract := fun _ => []
    totalFiles := 0
    analyzedFiles := 0
    now := "2024-01-02T03:04:05.000Z"
    fmtReset := fun _ => ""
    loadTime := "2024-01-01T00:00:00.000Z" }

/-- The wrapped message rethrown when the repository probe fails
(`GitHub API unavailable (…). Showing demo visualization instead.`). -/
def outerFallbackMsg (w : AnalyzeWorld) (e : FetchError) : String :=
  "GitHub API unavailable (" ++ e.message w.fmtReset ++
    "). Showing demo visualization instead."

/-- The first-page description written by the outer catch in the
probe-failure fallback: the warning marker, the wrapped message, and the
demo-visualization suffix. -/
def fallbackDesc (w : AnalyzeWorld) (e : FetchError) : String :=
  "⚠️ " ++ outerFallbackMsg w e ++ ". Showing demo visualization instead."

/-! ## Helper lemmas -/

theorem hasSub_of_isPrefixOf {l pat : List Char} (h : pat.isPrefixOf l) :
    hasSub l pat = true := by
  unfold hasSub
  simp [h]

theorem hasSub_cons_of_hasSub {l pat : List Char} (c : Char) (h : hasSub l pat = true) :
    hasSub (c :: l) pat = true := by
  unfold hasSub
  simp [h]

theorem hasSub_append_right (l' : List Char) {l pat : List Char}
    (h : hasSub l pat = true) : hasSub (l' ++ l) pat = true := by
  induction l' with
  | nil => simpa using h
  | cons c t ih => exact hasSub_cons_of_hasSub c ih

theorem hasSub_self_append (pat r : List Char) : hasSub (pat ++ r) pat = true :=
  hasSub_of_isPrefixOf (by simp [List.isPrefixOf_iff_prefix])

theorem hasSub_middle (a pat b : List Char) : hasSub (a ++ (pat ++ b)) pat = true :=
  hasSub_append_right a (hasSub_self_append pat b)

theorem decDigitsAux_eq_of_le : ∀ fuel₁ fuel₂ n : Nat, n ≤ fuel₁ → n ≤ fuel₂ →
    decDigitsAux fuel₁ n = decDigitsAux fuel₂ n := by
  intro fuel₁
  induction fuel₁ with
  | zero =>
    intro fuel₂ n h₁ _
    interval_cases n
    cases fuel₂ <;> simp [decDigitsAux]
  | succ f ih =>
    intro fuel₂ n h₁ h₂
    cases fuel₂ with
    | zero =>
      interval_cases n
      simp [decDigitsAux]
    | succ g =>
      by_cases hn : n = 0
      · simp [decDigitsAux, hn]
      · have hd : n / 10 < n := Nat.div_lt_self (Nat.pos_of_ne_zero hn) (by norm_num)
        have h₁' : n / 10 ≤ f := by omega
        have h₂' : n / 10 ≤ g := by omega
        simp only [decDigitsAux, hn, if_false]
        rw [ih g (n / 10) h₁' h₂']

theorem decDigits_succ_eq (n : Nat) (hn : n ≠ 0) :
    decDigits n = n % 10 :: decDigits (n / 10) := by
  cases n with
  | zero => exact absurd rfl hn
  | succ m =>
    show decDigitsAux (m + 1) (m + 1) = _
    simp only [decDigitsAux, Nat.succ_ne_zero, if_false]
    congr 1
    exact decDigitsAux_eq_of_le m ((m + 1) / 10) ((m + 1) / 10)
      (by omega) (le_refl _)

theorem ofDec_decDigits : ∀ n : Nat, ofDec (decDigits n) = n := by
  intro n
  induction n using Nat.strong_induction_on with
  | _ n ih =>
    by_cases hn : n = 0
    · subst hn; rfl
    · rw [decDigits_succ_eq n hn]
      have hd : n / 10 < n := Nat.div_lt_self (Nat.pos_of_ne_zero hn) (by norm_num)
      show n % 10 + 10 * ofDec (decDigits (n / 10)) = n
      rw [ih (n / 10) hd]
      omega

theorem decDigits_injective : Function.Injective decDigits :=
  Function.LeftInverse.injective ofDec_decDigits

theorem decDigits_lt_ten : ∀ n : Nat, ∀ d ∈ decDigits n, d < 10 := by
  intro n
  induction n using Nat.strong_induction_on with
  | _ n ih =>
    by_cases hn : n = 0
    · subst hn; intro d hd; simp [decDigits, decDigitsAux] at hd
    · rw [decDigits_succ_eq n hn]
      intro d hd
      rcases List.mem_cons.mp hd with h | h
      · subst h; exact Nat.mod_lt _ (by norm_num)
      · exact ih (n / 10) (Nat.div_lt_self (Nat.pos_of_ne_zero hn) (by norm_num)) d h

theorem digitChar_inj_lt : ∀ d₁ < 10, ∀ d₂ < 10,
    Nat.digitChar d₁ = Nat.digitChar d₂ → d₁ = d₂ := by decide

theorem digitChar_ne_zero_char : ∀ d < 10, d ≠ 0 → Nat.digitChar d ≠ '0' := by decide

theorem digitChar_ne_dash : ∀ d < 10, Nat.digitChar d ≠ '-' := by decide

theorem map_digitChar_inj {l₁ l₂ : List Nat} (h₁ : ∀ d ∈ l₁, d < 10)
    (h₂ : ∀ d ∈ l₂, d < 10)
    (h : l₁.map Nat.digitChar = l₂.map Nat.digitChar) : l₁ = l₂ := by
  induction l₁ generalizing l₂ with
  | nil => cases l₂ <;> simp_all
  | cons a t ih =>
    cases l₂ with
    | nil => simp_all
    | cons b u =>
      simp only [List.map_cons, List.cons.injEq] at h
      have ha : a = b := digitChar_inj_lt a (h₁ a (by simp)) b (h₂ b (by simp)) h.1
      have ht : t = u := ih (fun d hd => h₁ d (by simp [hd]))
        (fun d hd => h₂ d (by simp [hd])) h.2
      simp [ha, ht]

theorem natDecChars_injective : Function.Injective natDecChars := by
  intro m n h
  by_cases hm : m = 0 <;> by_cases hn : n = 0
  · omega
  · exfalso
    simp only [natDecChars, hm, if_true, hn, if_false] at h
    have := congrArg List.reverse h
    simp only [List.reverse_reverse] at this
    rw [decDigits_succ_eq n hn] at this
    cases hrest : decDigits (n / 10) with
    | nil =>
      rw [hrest] at this
      simp only [List.map_cons, List.map_nil, List.reverse_cons, List.reverse_nil,
        List.nil_append, List.cons.injEq] at this
      have hlt : n % 10 < 10 := Nat.mod_lt _ (by norm_num)
      have hne : n % 10 ≠ 0 := by
        intro h0
        have := ofDec_decDigits n
        rw [decDigits_succ_eq n hn, hrest] at this
        simp [ofDec, h0] at this
        omega
      exact digitChar_ne_zero_char (n % 10) hlt hne this.1.symm
    | cons a u =>
      rw [hrest] at this
      simp only [List.map_cons, List.reverse_cons] at this
      have hlen := congrArg List.length this
      simp at hlen
  · exfalso
    simp only [natDecChars, hn, if_true, hm, if_false] at h
    have := congrArg List.reverse h
    simp only [List.reverse_reverse] at this
    rw [decDigits_succ_eq m hm] at this
    cases hrest : decDigits (m / 10) with
    | nil =>
      rw [hrest] at this
      simp only [List.map_cons, List.map_nil, List.reverse_cons, List.reverse_nil,
        List.nil_append, List.cons.injEq] at this
      have hlt : m % 10 < 10 := Nat.mod_lt _ (by norm_num)
      have hne : m % 10 ≠ 0 := by
        intro h0
        have := ofDec_decDigits m
        rw [decDigits_succ_eq m hm, hrest] at this
        simp [ofDec, h0] at this
        omega
      exact digitChar_ne_zero_char (m % 10) hlt hne this.1
    | cons a u =>
      rw [hrest] at this
      simp only [List.map_cons, List.reverse_cons] at this
      have hlen := congrArg List.length this
      simp at hlen
  · simp only [natDecChars, hm, hn, if_false] at h
    have h' := congrArg List.reverse h
    simp only [List.reverse_reverse] at h'
    have := map_digitChar_inj (decDigits_lt_ten m) (decDigits_lt_ten n) h'
    exact decDigits_injective this

theorem dash_not_mem_natDecChars (n : Nat) : '-' ∉ natDecChars n := by
  by_cases hn : n = 0
  · subst hn; simp [natDecChars]
  · simp only [natDecChars, hn, if_false]
    intro hmem
    rw [List.mem_reverse] at hmem
    rcases List.mem_map.mp hmem with ⟨d, hd, hchar⟩
    exact digitChar_ne_dash d (decDigits_lt_ten n d hd) hchar

theorem hasSub_append_left {l pat : List Char} (r : List Char)
    (h : hasSub l pat = true) : hasSub (l ++ r) pat = true := by
  induction l with
  | nil =>
    unfold hasSub at h
    rcases Bool.or_eq_true_iff.mp h with h' | h'
    · have : pat = [] := by
        cases pat with
        | nil => rfl
        | cons a t => simp [List.isPrefixOf] at h'
      subst this
      exact hasSub_of_isPrefixOf (by simp [List.isPrefixOf])
    · simp at h'
  | cons c t ih =>
    unfold hasSub at h
    rcases Bool.or_eq_true_iff.mp h with h' | h'
    · refine hasSub_of_isPrefixOf ?_
      rw [List.isPrefixOf_iff_prefix] at h' ⊢
      exact h'.trans (by simp)
    · exact hasSub_cons_of_hasSub c (ih h')

theorem upToFirst_eq_of_not_hasSub {l pat : List Char}
    (h : hasSub l pat = false) : upToFirst l pat = l := by
  induction l with
  | nil => simp [upToFirst]
  | cons c t ih =>
    unfold hasSub at h
    rw [Bool.or_eq_false_iff] at h
    unfold upToFirst
    simp [h.1, ih h.2]

theorem length_filterMap_eq (f : α → Option β) (l : List α) :
    (l.filterMap f).length = (l.filter (fun x => (f x).isSome)).length := by
  induction l with
  | nil => rfl
  | cons a t ih =>
    rw [List.filterMap_cons, List.filter_cons]
    cases h : f a with
    | none => simpa [h] using ih
    | some b => simpa [h] using ih

theorem append_sep_inj {c : Char} :
    ∀ {l₁ l₂ r₁ r₂ : List Char}, l₁ ++ c :: r₁ = l₂ ++ c :: r₂ →
      c ∉ l₁ → c ∉ l₂ → l₁ = l₂ ∧ r₁ = r₂ := by
  intro l₁
  induction l₁ with
  | nil =>
    intro l₂ r₁ r₂ h h₁ h₂
    cases l₂ with
    | nil => simpa using h
    | cons b t =>
      simp only [List.nil_append, List.cons_append, List.cons.injEq] at h
      exact absurd (h.1 ▸ List.mem_cons_self b t) (h.1 ▸ h₂)
  | cons a t ih =>
    intro l₂ r₁ r₂ h h₁ h₂
    cases l₂ with
    | nil =>
      simp only [List.cons_append, List.nil_append, List.cons.injEq] at h
      exact absurd (h.1 ▸ List.mem_cons_self a t) (fun hm => h₁ (h.1 ▸ hm))
    | cons b u =>
      simp only [List.cons_append, List.cons.injEq] at h
      have := ih h.2 (fun hm => h₁ (List.mem_cons_of_mem a hm))
        (fun hm => h₂ (List.mem_cons_of_mem b hm))
      exact ⟨by simp [h.1, this.1], this.2⟩

theorem idString_inj {low₁ low₂ : List Char} {i j : Nat}
    (h₁ : '-' ∉ low₁) (h₂ : '-' ∉ low₂)
    (h : idString low₁ i = idString low₂ j) : low₁ = low₂ ∧ i = j := by
  have hd : low₁ ++ '-' :: natDecChars i = low₂ ++ '-' :: natDecChars j := by
    have := congrArg String.data h
    simpa [idString] using this
  obtain ⟨hl, hr⟩ := append_sep_inj hd h₁ h₂
  exact ⟨hl, natDecChars_injective hr⟩

theorem detectEntry_some_spec {i : Nat} {nm content fp : String} {pg : PageFlow}
    (h : detectEntry i nm content fp = some pg) :
    nm ≠ "" ∧ pageGate (lowerStr nm).data fp = true ∧
    pg.id = idString (lowerStr nm).data i ∧
    pg.connections = [] ∧
    pg.type = classifyType (lowerStr nm).data ∧
    pg.metadata.complexity = complexityOf content := by
  unfold detectEntry at h
  by_cases h1 : nm = ""
  · simp [h1] at h
  · simp only [h1, if_false] at h
    by_cases h2 : pageGate (lowerStr nm).data fp
    · simp only [h2, if_true] at h
      obtain rfl := (Option.some.inj h).symm
      exact ⟨h1, by simp [h2], rfl, rfl, rfl, rfl⟩
    · simp [h2] at h

theorem detectEntry_isSome_iff (i : Nat) (nm content fp : String) :
    (detectEntry i nm content fp).isSome = true ↔
      nm ≠ "" ∧ pageGate (lowerStr nm).data fp = true := by
  constructor
  · intro h
    obtain ⟨pg, hpg⟩ := Option.isSome_iff_exists.mp h
    have := detectEntry_some_spec hpg
    exact ⟨this.1, this.2.1⟩
  · rintro ⟨h1, h2⟩
    unfold detectEntry
    simp [h1, h2]

/-! ## Claim C2 — complexity scoring -/

/-- C2, counterexample. The claim asserts that the complexity bucket of a
file text is the spec's additive score (+1 per hook occurrence, per
ternary, per collection transform, per inline handler, +2 per network
call, line-count bonuses) put through the thresholds `≤3 → low`,
`≤8 → medium`, else `high`. On `c2Content` — which contains the
class-component signals `this.state` and `componentDidMount` but no
occurrence of any additive pattern — the code computes `medium` while the
claimed additive score is 0, bucket `low`: the code's score is the count
of five boolean presence signals with thresholds `≥4 → high`,
`≥2 → medium`, not the claimed additive occurrence sum. -/
theorem claim_C2_counterexample :
    complexityOf c2Content ≠ specComplexityBucket (specComplexityScore c2Content) ∧
    complexityOf c2Content = Complexity.medium ∧
    specComplexityScore c2Content = 0 ∧
    specComplexityBucket (specComplexityScore c2Content) = Complexity.low := by
  refine ⟨by decide, by decide, by decide, by decide⟩

/-- C2, amended: the complexity stored on every detected node is
`complexityOf` of the file text, where the score is the number of `true`
signals among the five boolean presence tests
`[hasState, hasEffects, hasAPI, hasForm, hasAuth]` (each a
substring-presence test), and the bucket is `high` iff at least 4 signals
hold, `medium` iff 2 or 3 hold, and `low` iff at most 1 holds (so the
score is at most 5 and the map is deterministic in the text). -/
theorem claim_C2_amended (names : List String) (content fp : String) :
    (∀ pg ∈ detectPageFlows names content fp,
        pg.metadata.complexity = complexityOf content) ∧
    (complexityOf content = .high ↔ 4 ≤ complexityScore content) ∧
    (complexityOf content = .medium ↔
      (2 ≤ complexityScore content ∧ complexityScore content < 4)) ∧
    (complexityOf content = .low ↔ complexityScore content < 2) ∧
    complexityScore content ≤ 5 := by
  refine ⟨?_, ?_, ?_, ?_, ?_⟩
  · intro pg hpg
    obtain ⟨p, _, hsome⟩ := List.mem_filterMap.mp hpg
    exact (detectEntry_some_spec hsome).2.2.2.2.2
  · by_cases h4 : 4 ≤ complexityScore content
    · simp [complexityOf, h4]
    · by_cases h2 : 2 ≤ complexityScore content
      · simp [complexityOf, h4, h2]
      · simp [complexityOf, h4, h2]
  · by_cases h4 : 4 ≤ complexityScore content
    · simp [complexityOf, h4] <;> omega
    · by_cases h2 : 2 ≤ complexityScore content
      · simp [complexityOf, h4, h2] <;> omega
      · simp [complexityOf, h4, h2] <;> omega
  · by_cases h4 : 4 ≤ complexityScore content
    · simp [complexityOf, h4] <;> omega
    · by_cases h2 : 2 ≤ complexityScore content
      · simp [complexityOf, h4, h2] <;> omega
      · simp [complexityOf, h4, h2] <;> omega
  · have h := List.count_le_length true (complexitySignals content)
    simpa [complexityScore, complexitySignals] using h

/-- C2 witness: the amended theorem applied to the concrete detected node
of `c2Content`. -/
theorem claim_C2_amended_witness :
    c2Page ∈ detectPageFlows ["TestPage"] c2Content "src/pages/Test.tsx" ∧
    c2Page.metadata.complexity = complexityOf c2Content :=
  ⟨by decide,
   (claim_C2_amended ["TestPage"] c2Content "src/pages/Test.tsx").1 c2Page
     (by decide)⟩

/-! ## Claim C3 — retry behaviour of the transport layer -/

/-- C3, counterexample. The claim asserts that a rate-limit (403) or
not-found (404) response is non-retryable and surfaces immediately. In
the code both throws happen inside the `try` block of the retry loop, so
they are caught and retried like any other failure: with a 403 on attempt
0 and a 200 on attempt 1, `fetchWithRetry` sleeps once and returns the
success instead of surfacing the rate-limit error. -/
theorem claim_C3_counterexample :
    attemptOutcome (c3Attempts 0) =
      .error (.rateLimited (some 1700000000)) ∧
    (fetchWithRetry c3Attempts).result ≠
      .error (.rateLimited (some 1700000000)) ∧
    (fetchWithRetry c3Attempts).result = .ok { status := 200 } ∧
    (fetchWithRetry c3Attempts).delays = [1000] := by
  refine ⟨rfl, ?_, rfl, rfl⟩
  intro h
  rw [show (fetchWithRetry c3Attempts).result =
    Except.ok ({ status := 200 } : HttpResponse) from rfl] at h
  exact Except.noConfusion h

/-- C3, amended: a 403 response maps to a rate-limit error carrying the
parsed `X-RateLimit-Reset` value and a 404 to a repository-not-found
error, but every failure — these two included — is retried up to 2
additional times with linearly increasing delays (1×, 2× the 1000 ms base
unit; at most two sleeps occur because the third failure surfaces): the
first success is returned, and when all three attempts fail the last
error surfaces. -/
theorem claim_C3_amended (att : Nat → NetAttempt) (r : HttpResponse)
    (e₀ e₁ e₂ : FetchError) :
    (r.status = 403 →
      attemptOutcome (.ok r) = .error (.rateLimited r.rateLimitReset)) ∧
    (r.status = 404 → attemptOutcome (.ok r) = .error .notFound) ∧
    (attemptOutcome (att 0) = .ok r →
      fetchWithRetry att = ⟨.ok r, [], 1⟩) ∧
    (attemptOutcome (att 0) = .error e₀ → attemptOutcome (att 1) = .ok r →
      fetchWithRetry att = ⟨.ok r, [1000], 2⟩) ∧
    (attemptOutcome (att 0) = .error e₀ →
      attemptOutcome (att 1) = .error e₁ →
      attemptOutcome (att 2) = .error e₂ →
      fetchWithRetry att = ⟨.error e₂, [1000, 2000], 3⟩) := by
  refine ⟨?_, ?_, ?_, ?_, ?_⟩
  · intro h; simp [attemptOutcome, h]
  · intro h; simp [attemptOutcome, h]
  · intro h
    unfold fetchWithRetry fetchRetryGo
    rw [h]
  · intro h0 h1
    unfold fetchWithRetry fetchRetryGo
    rw [h0]
    unfold fetchRetryGo
    rw [h1]
  · intro h0 h1 h2
    unfold fetchWithRetry fetchRetryGo
    rw [h0]
    unfold fetchRetryGo
    rw [h1]
    unfold fetchRetryGo
    rw [h2]

/-- C3 witness: the amended theorem applied to an all-failing attempt
sequence — three 500 responses surface the last host error after sleeping
1000 ms and 2000 ms. -/
theorem claim_C3_amended_witness :
    fetchWithRetry c3FailAttempts =
      ⟨.error (.hostError 500), [1000, 2000], 3⟩ :=
  (claim_C3_amended c3FailAttempts { status := 500 } (.hostError 500)
    (.hostError 500) (.hostError 500)).2.2.2.2 rfl rfl rfl

/-! ## Claim C9 — journey synthesis -/

/-- C9: journey synthesis emits at most two journeys and no others — a
`guest` journey exactly when both a home-like and a login-like node exist,
starting at the first home-like node and ending at the first
dashboard-like node if one exists, else at the first login-like node; and
an `authenticated` journey exactly when a dashboard-like node exists,
degenerate (one step, equal start and end) on that node. -/
theorem claim_C9 (pages : List PageFlow) :
    (generateUserJourneys pages).length ≤ 2 ∧
    (∀ j ∈ generateUserJourneys pages,
      j.userType = .guest ∨ j.userType = .authenticated) ∧
    ((∃ j ∈ generateUserJourneys pages, j.userType = .guest) ↔
      ((∃ p ∈ pages, homeLike p = true) ∧ (∃ p ∈ pages, loginLike p = true))) ∧
    ((∃ j ∈ generateUserJourneys pages, j.userType = .authenticated) ↔
      (∃ p ∈ pages, dashboardLike p = true)) ∧
    (∀ j ∈ generateUserJourneys pages, j.userType = .guest →
      (∃ h, pages.find? homeLike = some h ∧ j.startPage = h.id) ∧
      (∀ d, pages.find? dashboardLike = some d → j.endPage = d.id) ∧
      (pages.find? dashboardLike = none →
        ∃ l, pages.find? loginLike = some l ∧ j.endPage = l.id)) ∧
    (∀ j ∈ generateUserJourneys pages, j.userType = .authenticated →
      j.startPage = j.endPage ∧ j.steps.length = 1 ∧
      ∃ d, pages.find? dashboardLike = some d ∧ j.startPage = d.id) := by
  have hhome : (∃ p ∈ pages, homeLike p = true) ↔
      (pages.find? homeLike).isSome = true := List.find?_isSome.symm
  have hlogin : (∃ p ∈ pages, loginLike p = true) ↔
      (pages.find? loginLike).isSome = true := List.find?_isSome.symm
  have hdash : (∃ p ∈ pages, dashboardLike p = true) ↔
      (pages.find? dashboardLike).isSome = true := List.find?_isSome.symm
  rw [hhome, hlogin, hdash]
  simp only [generateUserJourneys]
  rcases hh : pages.find? homeLike with _ | h <;>
  rcases hl : pages.find? loginLike with _ | l <;>
  rcases hd : pages.find? dashboardLike with _ | d <;>
  simp_all

/-- C9 witness: the theorem applied to the demo node set, which has
home-like, login-like and dashboard-like nodes, so both journeys exist. -/
theorem claim_C9_witness :
    (generateUserJourneys (demoPages DEMO_HOME_DESC)).length ≤ 2 ∧
    (∃ j ∈ generateUserJourneys (demoPages DEMO_HOME_DESC),
      j.userType = .guest) ∧
    (∃ j ∈ generateUserJourneys (demoPages DEMO_HOME_DESC),
      j.userType = .authenticated) :=
  ⟨(claim_C9 (demoPages DEMO_HOME_DESC)).1,
   (claim_C9 (demoPages DEMO_HOME_DESC)).2.2.1.mpr ⟨by decide, by decide⟩,
   (claim_C9 (demoPages DEMO_HOME_DESC)).2.2.2.1.mpr (by decide)⟩

/-! ## Claim C8 — keyword classification and the page gate -/

/-- C8, counterexample. The claim asserts that a declaration whose name
contains "layout"/"wrapper" yields a `layout` node independent of the
file's path. In the code a page-level gate runs first: a declaration is
skipped entirely unless the path has a pages/routes/app segment or the
name contains page/screen/view. `MainLayout` in
`src/components/Foo.tsx` therefore produces no node at all, while the
same declaration under `src/pages/` produces a `layout` node — the
classification is not path-independent. -/
theorem claim_C8_counterexample :
    strContains (lowerStr "MainLayout") "layout" = true ∧
    detectPageFlows ["MainLayout"] c8Content "src/components/Foo.tsx" = [] ∧
    (detectPageFlows ["MainLayout"] c8Content "src/pages/Foo.tsx").map
      (·.type) = [.layout] := by
  refine ⟨by decide, by decide, by decide⟩

/-- C8, amended: a declaration produces a node iff its name is non-empty
and the page gate passes (path contains a pages/routes/app segment or the
lowercased name contains page/screen/view); for a produced node the
keyword tie-break order is layout/wrapper > modal/dialog > redirect >
page. -/
theorem claim_C8_amended (i : Nat) (nm content fp : String) :
    ((detectEntry i nm content fp).isSome = true ↔
      (nm ≠ "" ∧ pageGate (lowerStr nm).data fp = true)) ∧
    (∀ pg, detectEntry i nm content fp = some pg →
      ((hasSub (lowerStr nm).data "layout".data ||
        hasSub (lowerStr nm).data "wrapper".data) = true →
        pg.type = .layout) ∧
      ((hasSub (lowerStr nm).data "layout".data ||
        hasSub (lowerStr nm).data "wrapper".data) = false →
       (hasSub (lowerStr nm).data "modal".data ||
        hasSub (lowerStr nm).data "dialog".data) = true →
        pg.type = .modal) ∧
      ((hasSub (lowerStr nm).data "layout".data ||
        hasSub (lowerStr nm).data "wrapper".data) = false →
       (hasSub (lowerStr nm).data "modal".data ||
        hasSub (lowerStr nm).data "dialog".data) = false →
        hasSub (lowerStr nm).data "redirect".data = true →
        pg.type = .redirect) ∧
      ((hasSub (lowerStr nm).data "layout".data ||
        hasSub (lowerStr nm).data "wrapper".data) = false →
       (hasSub (lowerStr nm).data "modal".data ||
        hasSub (lowerStr nm).data "dialog".data) = false →
        hasSub (lowerStr nm).data "redirect".data = false →
        pg.type = .page)) := by
  refine ⟨detectEntry_isSome_iff i nm content fp, ?_⟩
  intro pg hpg
  have htype := (detectEntry_some_spec hpg).2.2.2.2.1
  refine ⟨?_, ?_, ?_, ?_⟩
  · intro h1; rw [htype]; simp only [classifyType, h1]; rfl
  · intro h1 h2; rw [htype]; simp [classifyType, h1, h2]
  · intro h1 h2 h3; rw [htype]; simp [classifyType, h1, h2, h3]
  · intro h1 h2 h3; rw [htype]; simp [classifyType, h1, h2, h3]

/-- C8 witness: `DashboardPageLayout` passes the gate via the `page`
keyword and classifies as `layout` (layout beats page in the tie-break). -/
theorem claim_C8_amended_witness :
    (detectEntry 0 "DashboardPageLayout" "" "src/components/X.tsx").isSome
      = true ∧
    c8Page.type = .layout :=
  ⟨(claim_C8_amended 0 "DashboardPageLayout" "" "src/components/X.tsx").1.mpr
     ⟨by decide, by decide⟩,
   (((claim_C8_amended 0 "DashboardPageLayout" "" "src/components/X.tsx").2
     c8Page (by decide)).1) (by decide)⟩

theorem scanPages_connections_nil {files : List ScannedFile} :
    ∀ pg ∈ scanPages files, pg.connections = [] := by
  intro pg hpg
  obtain ⟨f, _, hin⟩ := List.mem_flatMap.mp hpg
  by_cases hf : isPageFile f
  · rw [if_pos hf] at hin
    obtain ⟨p, _, hsome⟩ := List.mem_filterMap.mp hin
    exact (detectEntry_some_spec hsome).2.2.2.1
  · rw [if_neg hf] at hin
    exact absurd hin (List.not_mem_nil pg)

/-! ## Claim C1 — referential integrity of resolved connections -/

/-- C1: in a finished analysis every connection's target id is the id of
some node of the same result, and a raw reference is kept exactly when
some node's route path equals it — the resolved-connection count of a
node equals the number of its raw references whose target path matches
some node, so unmatched references are dropped rather than kept as
dangling edges. -/
theorem claim_C1 (files : List ScannedFile) (fetchTwo : String → String)
    (extract : String → List PageConnection) :
    (∀ pg ∈ (analyzePageFlows files fetchTwo extract).1,
      ∀ c ∈ pg.connections,
        ∃ q ∈ (analyzePageFlows files fetchTwo extract).1,
          q.id = c.targetPageId) ∧
    (∀ pg ∈ scanPages files,
      (resolveOne (scanPages files) fetchTwo extract pg).connections.length =
        ((extract (fetchTwo pg.filePath)).filter
          (fun c => (scanPages files).any
            (fun p => p.path = c.targetPageId))).length) := by
  constructor
  · intro pg hpg c hc
    obtain ⟨pg0, hpg0, rfl⟩ := List.mem_map.mp hpg
    have hconn0 : (resolveOne (scanPages files) fetchTwo extract pg0).connections
        = pg0.connections ++ (extract (fetchTwo pg0.filePath)).filterMap
            (fun c => ((scanPages files).find?
              (fun p => p.path = c.targetPageId)).map
                (fun t => { c with targetPageId := t.id })) := rfl
    rw [hconn0, scanPages_connections_nil pg0 hpg0, List.nil_append] at hc
    obtain ⟨craw, _, hsome⟩ := List.mem_filterMap.mp hc
    rcases hft : (scanPages files).find?
        (fun p => p.path = craw.targetPageId) with _ | t
    · rw [hft] at hsome
      exact absurd hsome (by simp)
    · rw [hft] at hsome
      simp only [Option.map_some'] at hsome
      obtain rfl := Option.some.inj hsome
      exact ⟨resolveOne (scanPages files) fetchTwo extract t,
        List.mem_map_of_mem _ (List.mem_of_find?_eq_some hft), rfl⟩
  · intro pg hpg
    have hconn : (resolveOne (scanPages files) fetchTwo extract pg).connections
        = pg.connections ++ (extract (fetchTwo pg.filePath)).filterMap
            (fun c => ((scanPages files).find?
              (fun p => p.path = c.targetPageId)).map
                (fun t => { c with targetPageId := t.id })) := rfl
    rw [hconn, scanPages_connections_nil pg hpg, List.nil_append,
      length_filterMap_eq]
    congr 1
    apply List.filter_congr
    intro c _
    rw [Bool.eq_iff_iff, List.any_eq_true]
    cases hft : (scanPages files).find? (fun p => p.path = c.targetPageId) with
    | none =>
      simp only [Option.map_none', Option.isSome_none]
      constructor
      · intro h; exact absurd h (by simp)
      · rintro ⟨x, hx, hpx⟩
        have hnone := List.find?_eq_none.mp hft x hx
        exact absurd hpx hnone
    | some t =>
      simp only [Option.map_some', Option.isSome_some, true_iff]
      have hp := List.find?_some hft
      exact ⟨t, List.mem_of_find?_eq_some hft, hp⟩

/-- C1 witness: in the two-file node set (routes `/Home` and `/Start`)
with each file referencing the matching route `/Home` and the unmatched
route `/missing`, every node carries exactly one resolved connection —
`/missing` is dropped — targeting `homepage-0`; the theorem, applied at
the first node and its concrete connection, yields a node of the result
bearing that id. -/
theorem claim_C1_witness :
    c1Result.map (fun pg => pg.connections.map (·.targetPageId)) =
      [["homepage-0"], ["homepage-0"]] ∧
    c1Conn ∈ c1Page.connections ∧
    (∃ q ∈ c1Result, q.id = c1Conn.targetPageId) :=
  ⟨by decide, by decide,
   (claim_C1 [c6FileA, c6FileB] (fun _ => "") c1Extract).1 c1Page (by decide)
     c1Conn (by decide)⟩

theorem mem_detect_from_spec {k : Nat} {names : List String}
    {content fp : String} {pg : PageFlow}
    (h : pg ∈ (List.enumFrom k names).filterMap
      (fun p => detectEntry p.1 p.2 content fp)) :
    ∃ j nm, k ≤ j ∧ nm ∈ names ∧ pg.id = idString (lowerStr nm).data j := by
  obtain ⟨⟨j, nm⟩, hmem, hsome⟩ := List.mem_filterMap.mp h
  exact ⟨j, nm, List.le_fst_of_mem_enumFrom hmem,
    List.snd_mem_of_mem_enumFrom hmem,
    (detectEntry_some_spec hsome).2.2.1⟩

theorem detect_ids_nodup_from (content fp : String) :
    ∀ (names : List String) (k : Nat),
    (∀ nm ∈ names, '-' ∉ (lowerStr nm).data) →
    (((List.enumFrom k names).filterMap
        (fun p => detectEntry p.1 p.2 content fp)).map (·.id)).Nodup := by
  intro names
  induction names with
  | nil => intro k _; simp
  | cons nm rest ih =>
    intro k h
    rw [List.enumFrom_cons, List.filterMap_cons]
    cases hd : detectEntry k nm content fp with
    | none => exact ih (k + 1) (fun x hx => h x (List.mem_cons_of_mem _ hx))
    | some pg =>
      rw [List.map_cons]
      refine List.nodup_cons.mpr ⟨?_, ih (k + 1)
        (fun x hx => h x (List.mem_cons_of_mem _ hx))⟩
      intro hmem
      obtain ⟨q, hq, hqid⟩ := List.mem_map.mp hmem
      obtain ⟨j, nm', hj, hnm', hqid'⟩ := mem_detect_from_spec hq
      have hpgid := (detectEntry_some_spec hd).2.2.1
      have hinj := idString_inj (h nm' (List.mem_cons_of_mem _ hnm'))
        (h nm (List.mem_cons_self nm rest)) (hqid'.symm.trans (hqid.trans hpgid))
      omega

/-! ## Claim C6 — node id uniqueness -/

/-- C6, counterexample. The claim asserts result-wide pairwise-distinct
node ids, guaranteed by combining the lowercase declaration name with its
occurrence index within the file. The id contains no file-path component,
so two files that each export a `HomePage` declaration at match ordinal 0
produce two nodes that both carry id `homepage-0`: the finished node set
of the two-file analysis has a duplicated id. -/
theorem claim_C6_counterexample :
    ((analyzePageFlows [c6FileA, c6FileB] (fun _ => "") (fun _ => [])).1.map
      (·.id)) = ["homepage-0", "homepage-0"] ∧
    ¬ ((analyzePageFlows [c6FileA, c6FileB] (fun _ => "")
      (fun _ => [])).1.map (·.id)).Nodup := by
  refine ⟨by decide, by decide⟩

/-- C6, amended: the ids are pairwise distinct among the nodes detected
within a single file — the lowercased declaration name (hyphen-free, as
every `\w+` capture is) combined with the match ordinal is injective —
but across files nothing distinguishes same-named declarations at the
same ordinal, so result-wide distinctness fails. -/
theorem claim_C6_amended (names : List String) (content fp : String)
    (h : ∀ nm ∈ names, '-' ∉ (lowerStr nm).data) :
    ((detectPageFlows names content fp).map (·.id)).Nodup :=
  detect_ids_nodup_from content fp names 0 h

/-- C6 witness: two distinct declarations in one file get distinct ids. -/
theorem claim_C6_amended_witness :
    ((detectPageFlows ["HomePage", "AboutPage"] "" "src/pages/Multi.tsx").map
      (·.id)).Nodup :=
  claim_C6_amended ["HomePage", "AboutPage"] "" "src/pages/Multi.tsx"
    (by decide)

theorem takeWhile_append_of_all {p : Char → Bool} :
    ∀ (xs : List Char) (y : Char) (ys : List Char), (∀ x ∈ xs, p x = true) →
      p y = false → (xs ++ y :: ys).takeWhile p = xs := by
  intro xs
  induction xs with
  | nil => intro y ys _ hy; simp [List.takeWhile_cons, hy]
  | cons a t ih =>
    intro y ys hall hy
    have ha := hall a (List.mem_cons_self a t)
    simp [List.cons_append, List.takeWhile_cons, ha,
      ih y ys (fun x hx => hall x (List.mem_cons_of_mem a hx)) hy]

theorem dropWhile_append_of_all {p : Char → Bool} :
    ∀ (xs : List Char) (y : Char) (ys : List Char), (∀ x ∈ xs, p x = true) →
      p y = false → (xs ++ y :: ys).dropWhile p = y :: ys := by
  intro xs
  induction xs with
  | nil => intro y ys _ hy; simp [List.dropWhile_cons, hy]
  | cons a t ih =>
    intro y ys hall hy
    have ha := hall a (List.mem_cons_self a t)
    simp only [List.cons_append, List.dropWhile_cons, ha]
    exact ih y ys (fun x hx => hall x (List.mem_cons_of_mem a hx)) hy

theorem grabSeg_some_spec {l inner after : List Char}
    (h : grabSeg l = some (inner, after)) :
    l = inner ++ ']' :: after ∧ inner ≠ [] ∧ (∀ c ∈ inner, c ≠ ']') := by
  unfold grabSeg at h
  split at h
  · next after' heq =>
    dsimp only at h
    split at h
    · exact absurd h (by simp)
    · next hne =>
      obtain ⟨h1, h2⟩ := Prod.mk.injEq .. ▸ Option.some.inj h
      subst h2
      refine ⟨?_, ?_, ?_⟩
      · rw [← h1, ← heq]
        exact (List.takeWhile_append_dropWhile _ l).symm
      · intro hnil
        rw [← h1] at hnil
        exact hne (by rw [hnil]; rfl)
      · intro x hx
        rw [← h1] at hx
        have := List.mem_takeWhile_imp hx
        simpa using this
  · exact absurd h (by simp)

theorem grabSeg_append {x : List Char} (post : List Char) (hx : x ≠ [])
    (hxb : ∀ c ∈ x, c ≠ ']') : grabSeg (x ++ ']' :: post) = some (x, post) := by
  unfold grabSeg
  have htw : (x ++ ']' :: post).takeWhile (· ≠ ']') = x :=
    takeWhile_append_of_all x ']' post (fun c hc => by simpa using hxb c hc)
      (by simp)
  have hdw : (x ++ ']' :: post).dropWhile (· ≠ ']') = ']' :: post :=
    dropWhile_append_of_all x ']' post (fun c hc => by simpa using hxb c hc)
      (by simp)
  rw [hdw]
  simp only [htw]
  rw [if_neg (by simpa [List.isEmpty_iff] using hx)]

theorem rwbAux_eq_of_le :
    ∀ (n : Nat) (l : List Char), l.length ≤ n → ∀ f g : Nat,
      l.length ≤ f → l.length ≤ g → rwbAux f l = rwbAux g l := by
  intro n
  induction n with
  | zero =>
    intro l hl f g _ _
    have : l = [] := List.eq_nil_of_length_eq_zero (Nat.le_zero.mp hl)
    subst this
    cases f <;> cases g <;> simp [rwbAux]
  | succ n ih =>
    intro l hl f g hf hg
    cases l with
    | nil => cases f <;> cases g <;> simp [rwbAux]
    | cons c rest =>
      simp only [List.length_cons] at hl hf hg
      cases f with
      | zero => omega
      | succ f' =>
        cases g with
        | zero => omega
        | succ g' =>
          simp only [rwbAux]
          by_cases hc : c = '['
          · rw [if_pos hc, if_pos hc]
            cases hgs : grabSeg rest with
            | none =>
              simp only
              rw [ih rest (by omega) f' g' (by omega) (by omega)]
            | some pr =>
              obtain ⟨inner, after⟩ := pr
              obtain ⟨heq, hne, -⟩ := grabSeg_some_spec hgs
              have hlen : rest.length = inner.length + 1 + after.length := by
                rw [heq]; simp; omega
              simp only
              rw [ih after (by omega) f' g' (by omega) (by omega)]
          · rw [if_neg hc, if_neg hc]
            rw [ih rest (by omega) f' g' (by omega) (by omega)]

theorem rwBrackets_cons_seg {x : List Char} (post : List Char) (hx : x ≠ [])
    (hxb : ∀ c ∈ x, c ≠ ']') :
    rwBrackets ('[' :: (x ++ ']' :: post)) = ':' :: x ++ rwBrackets post := by
  have hlen : ('[' :: (x ++ ']' :: post)).length
      = x.length + post.length + 2 := by simp; omega
  unfold rwBrackets
  rw [hlen]
  show rwbAux (x.length + post.length + 1 + 1) ('[' :: (x ++ ']' :: post)) = _
  simp only [rwbAux, if_pos rfl, grabSeg_append post hx hxb]
  rw [rwbAux_eq_of_le (x.length + post.length + 1) post (by omega)
    (x.length + post.length + 1) post.length (by omega) (le_refl _)]
  rfl

theorem rwBrackets_cons_plain {c : Char} (rest : List Char) (hc : c ≠ '[') :
    rwBrackets (c :: rest) = c :: rwBrackets rest := by
  unfold rwBrackets
  show rwbAux (rest.length + 1) (c :: rest) = _
  simp only [rwbAux, if_neg hc]

theorem wellBracketedAux_eq_of_le :
    ∀ (n : Nat) (l : List Char), l.length ≤ n → ∀ f g : Nat,
      l.length ≤ f → l.length ≤ g →
        wellBracketedAux f l = wellBracketedAux g l := by
  intro n
  induction n with
  | zero =>
    intro l hl f g _ _
    have : l = [] := List.eq_nil_of_length_eq_zero (Nat.le_zero.mp hl)
    subst this
    cases f <;> cases g <;> simp [wellBracketedAux]
  | succ n ih =>
    intro l hl f g hf hg
    cases l with
    | nil => cases f <;> cases g <;> simp [wellBracketedAux]
    | cons c rest =>
      simp only [List.length_cons] at hl hf hg
      cases f with
      | zero => omega
      | succ f' =>
        cases g with
        | zero => omega
        | succ g' =>
          simp only [wellBracketedAux]
          by_cases hc : c = '['
          · rw [if_pos hc, if_pos hc]
            cases hgs : grabSeg rest with
            | none => simp only
            | some pr =>
              obtain ⟨inner, after⟩ := pr
              obtain ⟨heq, hne, -⟩ := grabSeg_some_spec hgs
              have hlen : rest.length = inner.length + 1 + after.length := by
                rw [heq]; simp; omega
              simp only
              rw [ih after (by omega) f' g' (by omega) (by omega)]
          · rw [if_neg hc, if_neg hc]
            by_cases hc2 : c = ']'
            · rw [if_pos hc2, if_pos hc2]
            · rw [if_neg hc2, if_neg hc2]
              rw [ih rest (by omega) f' g' (by omega) (by omega)]

theorem rwBrackets_no_brackets :
    ∀ (n : Nat) (l : List Char), l.length ≤ n → wellBracketed l = true →
      '[' ∉ rwBrackets l ∧ ']' ∉ rwBrackets l := by
  intro n
  induction n with
  | zero =>
    intro l hl _
    have : l = [] := List.eq_nil_of_length_eq_zero (Nat.le_zero.mp hl)
    subst this
    simp [rwBrackets, rwbAux]
  | succ n ih =>
    intro l hl hwb
    cases l with
    | nil => simp [rwBrackets, rwbAux]
    | cons c rest =>
      simp only [List.length_cons] at hl
      unfold wellBracketed at hwb
      rw [show (c :: rest).length = rest.length + 1 from rfl] at hwb
      simp only [wellBracketedAux] at hwb
      by_cases hc : c = '['
      · rw [if_pos hc] at hwb
        cases hgs : grabSeg rest with
        | none => rw [hgs] at hwb; exact absurd hwb (by simp)
        | some pr =>
          obtain ⟨inner, after⟩ := pr
          rw [hgs] at hwb
          simp only [Bool.and_eq_true, Bool.not_eq_true'] at hwb
          obtain ⟨hinb, hwba⟩ := hwb
          obtain ⟨heq, hne, hnin⟩ := grabSeg_some_spec hgs
          have hlen : rest.length = inner.length + 1 + after.length := by
            rw [heq]; simp; omega
          have hwba' : wellBracketed after = true := by
            unfold wellBracketed
            rw [wellBracketedAux_eq_of_le rest.length after (by omega)
              after.length rest.length (le_refl _) (by omega)]
            exact hwba
          have hih := ih after (by omega) hwba'
          subst hc
          rw [heq, rwBrackets_cons_seg after hne hnin]
          constructor
          · intro hmem
            rcases List.mem_cons.mp hmem with h | h
            · exact absurd h.symm (by decide)
            · rcases List.mem_append.mp h with h | h
              · have hinb' : List.elem '[' inner = false := hinb
                have helem : List.elem '[' inner = true := List.elem_iff.mpr h
                rw [hinb'] at helem
                exact Bool.noConfusion helem
              · exact hih.1 h
          · intro hmem
            rcases List.mem_cons.mp hmem with h | h
            · exact absurd h.symm (by decide)
            · rcases List.mem_append.mp h with h | h
              · exact hnin ']' h rfl
              · exact hih.2 h
      · rw [if_neg hc] at hwb
        by_cases hc2 : c = ']'
        · rw [if_pos hc2] at hwb; exact absurd hwb (by simp)
        · rw [if_neg hc2] at hwb
          have hwbr : wellBracketed rest = true := hwb
          have hih := ih rest (by omega) hwbr
          rw [rwBrackets_cons_plain rest hc]
          constructor
          · intro hmem
            rcases List.mem_cons.mp hmem with h | h
            · exact hc h.symm
            · exact hih.1 h
          · intro hmem
            rcases List.mem_cons.mp hmem with h | h
            · exact hc2 h.symm
            · exact hih.2 h

theorem afterFirst_cons_miss {c : Char} {t pat : List Char}
    (h : pat.isPrefixOf (c :: t) = false) :
    afterFirst (c :: t) pat = afterFirst t pat := by
  conv_lhs => unfold afterFirst
  rw [if_neg (by simp [h])]

theorem afterFirst_pages (sub : List Char) :
    afterFirst ("src/pages/".data ++ sub) "/pages/".data = some sub := by
  show afterFirst ('s' :: 'r' :: 'c' :: ("/pages/".data ++ sub))
    "/pages/".data = some sub
  rw [afterFirst_cons_miss (by rfl),
    afterFirst_cons_miss (by rfl),
    afterFirst_cons_miss (by rfl)]
  unfold afterFirst
  rw [if_pos (by
    rw [List.isPrefixOf_iff_prefix]
    exact List.prefix_append _ _)]
  simp

theorem mem_dropTrailingSlash {x : Char} {l : List Char}
    (h : x ∈ dropTrailingSlash l) : x ∈ l := by
  unfold dropTrailingSlash at h
  split at h
  · next rest hrev =>
    have hx : x ∈ l.reverse := by
      rw [hrev]
      exact List.mem_cons_of_mem _ (by simpa using h)
    simpa using hx
  · exact h

/-! ## Claim C7 — bracket rewriting in derived route paths -/

/-- C7, counterexample. The claim asserts that for every file path with a
`pages` segment and a bracketed dynamic segment, the derived route
contains no bracket characters. The global replace only rewrites
well-formed segments `[x]` with non-empty `x`; a stray empty pair `[]`
survives it, so `src/pages/[id]/a[].tsx` — which does contain the dynamic
segment `[id]` — derives the route `/:id/a[]`, which still contains
brackets. -/
theorem claim_C7_counterexample :
    strContains c7Path "/pages/" = true ∧
    hasSub c7Path.data ('[' :: 'i' :: 'd' :: [']']) = true ∧
    extractRoutePath c7Path "X" = "/:id/a[]" ∧
    '[' ∈ (extractRoutePath c7Path "X").data := by
  refine ⟨by decide, by decide, by decide, by decide⟩

/-- C7, amended: every well-formed bracket segment `[x]` (`x` non-empty,
`]`-free) is rewritten to the colon form `:x`, and whenever every bracket
character of the stripped pages sub-path lies in such a well-formed
segment, the derived route path contains no bracket characters. -/
theorem claim_C7_amended (sub : List Char) (name : String)
    (x post : List Char) (hx : x ≠ []) (hxb : ∀ c ∈ x, c ≠ ']')
    (hsub : sub ≠ []) (hnp : hasSub sub "/pages/".data = false)
    (hwb : wellBracketed (dropSuffix (dropTsSuffix sub) "/index".data) = true) :
    rwBrackets ('[' :: (x ++ ']' :: post)) = ':' :: x ++ rwBrackets post ∧
    '[' ∉ (extractRoutePath ⟨"src/pages/".data ++ sub⟩ name).data ∧
    ']' ∉ (extractRoutePath ⟨"src/pages/".data ++ sub⟩ name).data := by
  have hnb := rwBrackets_no_brackets
    (dropSuffix (dropTsSuffix sub) "/index".data).length
    (dropSuffix (dropTsSuffix sub) "/index".data) (le_refl _) hwb
  have hroute : extractRoutePath ⟨"src/pages/".data ++ sub⟩ name =
      (if ('/' :: rwBrackets (dropSuffix (dropTsSuffix sub) "/index".data))
          = ['/'] then "/"
       else ⟨dropTrailingSlash ('/' :: rwBrackets
          (dropSuffix (dropTsSuffix sub) "/index".data))⟩) := by
    unfold extractRoutePath
    rw [show (⟨"src/pages/".data ++ sub⟩ : String).data
      = "src/pages/".data ++ sub from rfl]
    rw [afterFirst_pages]
    simp only
    rw [upToFirst_eq_of_not_hasSub hnp]
    rw [if_neg (by simpa [List.isEmpty_iff] using hsub)]
    by_cases hr : ('/' :: rwBrackets
        (dropSuffix (dropTsSuffix sub) "/index".data)) = ['/']
    · rw [if_pos hr, if_pos hr]
    · rw [if_neg hr, if_neg hr]
  refine ⟨rwBrackets_cons_seg post hx hxb, ?_, ?_⟩ <;> rw [hroute]
  · by_cases hr : ('/' :: rwBrackets
        (dropSuffix (dropTsSuffix sub) "/index".data)) = ['/']
    · rw [if_pos hr]; decide
    · rw [if_neg hr]
      intro hmem
      have := mem_dropTrailingSlash hmem
      rcases List.mem_cons.mp this with h | h
      · exact absurd h.symm (by decide)
      · exact hnb.1 h
  · by_cases hr : ('/' :: rwBrackets
        (dropSuffix (dropTsSuffix sub) "/index".data)) = ['/']
    · rw [if_pos hr]; decide
    · rw [if_neg hr]
      intro hmem
      have := mem_dropTrailingSlash hmem
      rcases List.mem_cons.mp this with h | h
      · exact absurd h.symm (by decide)
      · exact hnb.2 h

/-- C7 witness: `src/pages/[id].tsx` derives `/:id`, bracket-free, via
the amended theorem. -/
theorem claim_C7_amended_witness :
    extractRoutePath "src/pages/[id].tsx" "X" = "/:id" ∧
    '[' ∉ (extractRoutePath "src/pages/[id].tsx" "X").data :=
  ⟨by decide,
   (claim_C7_amended ('[' :: 'i' :: 'd' :: ']' :: '.' :: 't' :: 's' :: ['x'])
     "X" ('i' :: ['d']) [] (by decide) (by decide) (by decide) (by decide)
     (by decide)).2.1⟩

theorem trimList_eq_of {c₀ : Char} {t : List Char} (h₀ : isWs c₀ = false)
    (h₁ : ∀ c rest, (c₀ :: t).reverse = c :: rest → isWs c = false) :
    trimList (c₀ :: t) = c₀ :: t := by
  unfold trimList
  rw [List.dropWhile_cons, if_neg (by simp [h₀])]
  cases hrev : (c₀ :: t).reverse with
  | nil => exact absurd hrev (by simp)
  | cons c rest =>
    have hd2 : (c :: rest).dropWhile isWs = c :: rest := by
      rw [List.dropWhile_cons, if_neg (by simp [h₁ c rest hrev])]
    rw [hd2, ← hrev, List.reverse_reverse]

theorem dropTrailingSlash_eq_self {l : List Char}
    (h : ∀ rest, l.reverse ≠ '/' :: rest) : dropTrailingSlash l = l := by
  unfold dropTrailingSlash
  split
  · next rest hrev => exact absurd hrev (h rest)
  · rfl

theorem findRepoRef_cons_skip {c : Char} {t : List Char}
    (h : ("github.com/".data).isPrefixOf (c :: t) = false) :
    findRepoRef (c :: t) = findRepoRef t := by
  conv_lhs => unfold findRepoRef
  rw [if_neg (by simp [h])]

theorem findRepoRef_cons_ne (c : Char) (t : List Char)
    (h : ('g' == c) = false) : findRepoRef (c :: t) = findRepoRef t := by
  apply findRepoRef_cons_skip
  rw [show "github.com/".data = 'g' :: "ithub.com/".data from rfl]
  simp [List.isPrefixOf, h]

theorem parseOwnerName_canonical (o n : List Char) (ho : o ≠ [])
    (hn : n ≠ []) (hoc : ∀ c ∈ o, c ≠ '/')
    (hnc : ∀ c ∈ n, c ≠ '/') :
    parseOwnerName (o ++ '/' :: n) = some (o, n, none) := by
  have howner : (o ++ '/' :: n).takeWhile (· ≠ '/') = o :=
    takeWhile_append_of_all o '/' n
      (fun c hc => by simpa using hoc c hc) (by simp)
  have hodrop : (o ++ '/' :: n).dropWhile (· ≠ '/') = '/' :: n :=
    dropWhile_append_of_all o '/' n
      (fun c hc => by simpa using hoc c hc) (by simp)
  have hname : n.takeWhile (· ≠ '/') = n :=
    List.takeWhile_eq_self_iff.mpr (fun c hc => by simpa using hnc c hc)
  have hndrop : n.dropWhile (· ≠ '/') = [] :=
    List.dropWhile_eq_nil_iff.mpr (fun c hc => by simpa using hnc c hc)
  unfold parseOwnerName
  rw [howner, hodrop]
  rw [if_neg (by simpa [List.isEmpty_iff] using ho)]
  simp only [hname, hndrop]
  rw [if_neg (by simpa [List.isEmpty_iff] using hn)]
  rw [show ("/tree/".data).isPrefixOf ([] : List Char) = false from rfl]
  simp

theorem findRepoRef_canonical (o n : List Char) (ho : o ≠ [])
    (hn : n ≠ []) (hoc : ∀ c ∈ o, c ≠ '/') (hnc : ∀ c ∈ n, c ≠ '/') :
    findRepoRef ("https://github.com/".data ++ o ++ '/' :: n)
      = some (o, n, none) := by
  rw [show "https://github.com/".data ++ o ++ '/' :: n
    = 'h' :: 't' :: 't' :: 'p' :: 's' :: ':' :: '/' :: '/' ::
      ("github.com/".data ++ (o ++ '/' :: n)) from rfl]
  rw [findRepoRef_cons_ne 'h' _ rfl, findRepoRef_cons_ne 't' _ rfl,
    findRepoRef_cons_ne 't' _ rfl, findRepoRef_cons_ne 'p' _ rfl,
    findRepoRef_cons_ne 's' _ rfl, findRepoRef_cons_ne ':' _ rfl,
    findRepoRef_cons_ne '/' _ rfl, findRepoRef_cons_ne '/' _ rfl]
  rw [show "github.com/".data ++ (o ++ '/' :: n)
    = 'g' :: ("ithub.com/".data ++ (o ++ '/' :: n)) from rfl]
  conv_lhs => unfold findRepoRef
  rw [if_pos (show ("github.com/".data).isPrefixOf
      ('g' :: ("ithub.com/".data ++ (o ++ '/' :: n))) = true by
    rw [show ('g' :: ("ithub.com/".data ++ (o ++ '/' :: n)))
      = "github.com/".data ++ (o ++ '/' :: n) from rfl]
    rw [List.isPrefixOf_iff_prefix]
    exact List.prefix_append _ _)]
  rw [show ('g' :: ("ithub.com/".data ++ (o ++ '/' :: n))).drop 11
    = o ++ '/' :: n from by
      rw [show ('g' :: ("ithub.com/".data ++ (o ++ '/' :: n)))
        = "github.com/".data ++ (o ++ '/' :: n) from rfl]
      rw [show (11 : Nat) = ("github.com/".data).length from rfl]
      exact List.drop_left _ _]
  rw [parseOwnerName_canonical o n ho hn hoc hnc]

theorem parseGitHubUrl_canonical (o n : List Char) (ho : o ≠ [])
    (hn : n ≠ []) (hoc : ∀ c ∈ o, c ≠ '/')
    (hnc : ∀ c ∈ n, c ≠ '/' ∧ isWs c = false) :
    parseGitHubUrl ⟨"https://github.com/".data ++ o ++ '/' :: n⟩ =
      some { url := ⟨"https://github.com/".data ++ o ++ '/' :: n⟩,
             owner := ⟨o⟩, name := ⟨n⟩, branch := "main" } := by
  obtain ⟨cₙ, rₙ, hrevn⟩ : ∃ c r, n.reverse = c :: r := by
    cases hr : n.reverse with
    | nil => exact absurd (by simpa using congrArg List.reverse hr) hn
    | cons c r => exact ⟨c, r, rfl⟩
  have hcmem : cₙ ∈ n := by
    have : cₙ ∈ n.reverse := by rw [hrevn]; exact List.mem_cons_self _ _
    simpa using this
  have hl : ("https://github.com/".data ++ o ++ '/' :: n)
      = 'h' :: ("ttps://github.com/".data ++ o ++ '/' :: n) := rfl
  have hrev : ∀ c rest,
      ('h' :: ("ttps://github.com/".data ++ o ++ '/' :: n)).reverse
        = c :: rest → c = cₙ := by
    intro c rest hr
    have hr2 : ('h' :: ("ttps://github.com/".data ++ o ++ '/' :: n)).reverse
        = cₙ :: (rₙ ++ ('/' :: o.reverse ++
          ("https://github.com/".data).reverse)) := by
      rw [← hl]
      simp [List.reverse_append, hrevn]
    rw [hr2] at hr
    exact (List.cons.injEq .. ▸ hr).1.symm
  have htrim : trimList ("https://github.com/".data ++ o ++ '/' :: n)
      = "https://github.com/".data ++ o ++ '/' :: n := by
    rw [hl]
    exact trimList_eq_of rfl (fun c rest hr => by
      rw [hrev c rest hr]
      exact (hnc cₙ hcmem).2)
  have hslash : dropTrailingSlash ("https://github.com/".data ++ o ++ '/' :: n)
      = "https://github.com/".data ++ o ++ '/' :: n := by
    apply dropTrailingSlash_eq_self
    intro rest hr
    rw [hl] at hr
    exact (hnc cₙ hcmem).1 (hrev '/' rest hr).symm
  unfold parseGitHubUrl
  rw [show (⟨"https://github.com/".data ++ o ++ '/' :: n⟩ : String).data
    = "https://github.com/".data ++ o ++ '/' :: n from rfl]
  rw [htrim, hslash,
    findRepoRef_canonical o n ho hn hoc (fun c hc => (hnc c hc).1)]

/-! ## Claim C5 — branch default and the absent `master` fallback -/

/-- C5, counterexample. The claim asserts that when the host reports the
tree missing under `main`, the same reference is retried once with branch
`master` before the failure surfaces. Against a host that 404s the `main`
contents URL but would serve a tree under `master`, `fetchRepoContents`
issues three requests — all to the `main` URL — and surfaces the
not-found failure; the `master` URL is never requested, although a
request to it would have succeeded. -/
theorem claim_C5_counterexample :
    parseGitHubUrl "https://github.com/octo/proj" = some c5Repo ∧
    (fetchRepoContents c5Host c5Repo "").1 = .error .notFound ∧
    (fetchRepoContents c5Host c5Repo "").2 =
      List.replicate 3 (contentsUrl c5Repo "") ∧
    contentsUrl c5RepoMaster "" ∉ (fetchRepoContents c5Host c5Repo "").2 ∧
    attemptOutcome (c5Host (contentsUrl c5RepoMaster "") 0) =
      .ok { status := 200,
            items := some [{ name := "src", path := "src", typ := "dir",
                             download_url := none }] } := by
  refine ⟨by decide, rfl, rfl, by decide, rfl⟩

/-- C5, amended: a canonical repository URL without a branch segment
parses with branch `main` (the `match[3] || 'main'` default), and when
the host reports the tree missing under that branch the failure is
surfaced after the uniform retries — every request `fetchRepoContents`
issues goes to the contents URL of the parsed branch; no `master`
fallback request exists. -/
theorem claim_C5_amended (o n : List Char) (ho : o ≠ []) (hn : n ≠ [])
    (hoc : ∀ c ∈ o, c ≠ '/') (hnc : ∀ c ∈ n, c ≠ '/' ∧ isWs c = false)
    (host : String → Nat → NetAttempt) (repo : GitHubRepo) (path : String) :
    parseGitHubUrl ⟨"https://github.com/".data ++ o ++ '/' :: n⟩ =
      some { url := ⟨"https://github.com/".data ++ o ++ '/' :: n⟩,
             owner := ⟨o⟩, name := ⟨n⟩, branch := "main" } ∧
    ∀ url ∈ (fetchRepoContents host repo path).2,
      url = contentsUrl repo path := by
  refine ⟨parseGitHubUrl_canonical o n ho hn hoc hnc, ?_⟩
  intro url hurl
  exact (List.mem_replicate.mp hurl).2

/-- C5 witness: the amended theorem instantiated at `octo`/`proj` and the
404-under-`main` host. -/
theorem claim_C5_amended_witness :
    parseGitHubUrl ⟨"https://github.com/".data ++
      ('o' :: 'c' :: 't' :: ['o']) ++ '/' :: ('p' :: 'r' :: 'o' :: ['j'])⟩ =
      some { url := ⟨"https://github.com/".data ++
               ('o' :: 'c' :: 't' :: ['o']) ++ '/' ::
               ('p' :: 'r' :: 'o' :: ['j'])⟩,
             owner := ⟨'o' :: 'c' :: 't' :: ['o']⟩,
             name := ⟨'p' :: 'r' :: 'o' :: ['j']⟩, branch := "main" } ∧
    ∀ url ∈ (fetchRepoContents c5Host c5Repo "").2,
      url = contentsUrl c5Repo "" :=
  claim_C5_amended ('o' :: 'c' :: 't' :: ['o']) ('p' :: 'r' :: 'o' :: ['j'])
    (by decide) (by decide) (by decide) (by decide) c5Host c5Repo ""

theorem demoPages_length (d : String) : (demoPages d).length = 9 := rfl

theorem demoPages_head_desc (d : String) :
    (demoPages d).head?.map (·.metadata.description) = some d := rfl

theorem parseOwnerName_some_spec :
    ∀ {l o nm : List Char} {br : Option (List Char)},
      parseOwnerName l = some (o, nm, br) → o ≠ [] ∧ nm ≠ [] := by
  intro l o nm br h
  unfold parseOwnerName at h
  by_cases hoe : (l.takeWhile (· ≠ '/')).isEmpty
  · rw [if_pos hoe] at h; exact absurd h (by simp)
  · rw [if_neg hoe] at h
    revert h
    split
    · next rest heq =>
      intro h
      by_cases hne : (rest.takeWhile (· ≠ '/')).isEmpty
      · rw [if_pos hne] at h; exact absurd h (by simp)
      · rw [if_neg hne] at h
        have hinj := Option.some.inj h
        have ho : l.takeWhile (· ≠ '/') = o := congrArg Prod.fst hinj
        have hn : rest.takeWhile (· ≠ '/') = nm :=
          congrArg (fun p => p.2.1) hinj
        constructor
        · intro hnil
          exact hoe (by rw [ho, hnil]; rfl)
        · intro hnil
          exact hne (by rw [hn, hnil]; rfl)
    · intro h; simp at h

theorem findRepoRef_components_ne_nil :
    ∀ {l o nm : List Char} {br : Option (List Char)},
      findRepoRef l = some (o, nm, br) → o ≠ [] ∧ nm ≠ [] := by
  intro l
  induction l with
  | nil => intro o nm br h; simp [findRepoRef] at h
  | cons c t ih =>
    intro o nm br h
    unfold findRepoRef at h
    by_cases hp : ("github.com/".data).isPrefixOf (c :: t) = true
    · rw [if_pos hp] at h
      cases hpo : parseOwnerName ((c :: t).drop 11) with
      | none => rw [hpo] at h; exact ih h
      | some r =>
        rw [hpo] at h
        obtain rfl := Option.some.inj h
        exact parseOwnerName_some_spec hpo
    · rw [if_neg hp] at h
      exact ih h

theorem parseGitHubUrl_name_ne_empty {url : String} {repo : GitHubRepo}
    (h : parseGitHubUrl url = some repo) : repo.name ≠ "" := by
  unfold parseGitHubUrl at h
  rcases hf : findRepoRef (dropTrailingSlash (trimList url.data))
      with _ | ⟨o, nm, br⟩ <;> rw [hf] at h
  · exact absurd h (by simp)
  · obtain rfl := (Option.some.inj h).symm
    intro hempty
    have : nm = [] := congrArg String.data hempty
    exact (findRepoRef_components_ne_nil hf).2 this

theorem strContains_fallbackDesc_API (w : AnalyzeWorld) (e : FetchError) :
    strContains (outerFallbackMsg w e) "API" = true := by
  unfold strContains outerFallbackMsg
  rw [show ("GitHub API unavailable (" ++ e.message w.fmtReset ++
      "). Showing demo visualization instead.").data
    = ("GitHub API unavailable (".data ++ (e.message w.fmtReset).data) ++
      "). Showing demo visualization instead.".data from by
        simp [String.data_append]]
  exact hasSub_append_left _
    (hasSub_append_left _ (by decide))

theorem analyzeTryBody_fallback (w : AnalyzeWorld) (url st : String)
    (repo : GitHubRepo) (e : FetchError)
    (hp : parseGitHubUrl url = some repo)
    (hprobe : (fetchWithRetry w.probeAttempts).result = .error e) :
    analyzeTryBody w url st = (.error (outerFallbackMsg w e),
      demoModeShortDesc) := by
  unfold analyzeTryBody
  rw [hp]
  simp only
  rw [hprobe]
  simp only
  rw [if_pos (by rw [demoPages_length]; decide)]
  rfl

theorem analyze_fallback_eq (w : AnalyzeWorld) (url st : String)
    (repo : GitHubRepo) (e : FetchError)
    (hp : parseGitHubUrl url = some repo)
    (hprobe : (fetchWithRetry w.probeAttempts).result = .error e) :
    analyzeGitHubRepo w url st =
      (.ok { DEMO_ANALYSIS w.loadTime (fallbackDesc w e) with
             repoUrl := url, repoName := repo.name, timestamp := w.now },
       fallbackDesc w e) := by
  unfold analyzeGitHubRepo
  rw [analyzeTryBody_fallback w url st repo e hp hprobe]
  simp only
  rw [if_pos (by
    rw [Bool.or_eq_true_iff]
    exact Or.inr (strContains_fallbackDesc_API w e))]
  rw [hp]
  simp only
  rw [if_neg (parseGitHubUrl_name_ne_empty hp)]
  rw [if_pos (by rw [demoPages_length]; decide)]
  rfl

/-! ## Claim C4 — fallback result on a failed repository probe -/

/-- C4: when the repository existence probe fails (e.g. all attempts
404), `analyzeGitHubRepo` returns the Fallback Provider's dataset with
`repoUrl` set to the input URL, `repoName` and `timestamp` overwritten to
match the request, and the first node's description rewritten to a string
that starts with the warning marker and contains both "demo" and the
original failure's message. -/
theorem claim_C4 (w : AnalyzeWorld) (url st : String) (repo : GitHubRepo)
    (e : FetchError) (hp : parseGitHubUrl url = some repo)
    (hprobe : (fetchWithRetry w.probeAttempts).result = .error e) :
    (analyzeGitHubRepo w url st).1 =
      .ok { DEMO_ANALYSIS w.loadTime (fallbackDesc w e) with
            repoUrl := url, repoName := repo.name, timestamp := w.now } ∧
    (∃ res, (analyzeGitHubRepo w url st).1 = .ok res ∧
      res.pages.head?.map (·.metadata.description) =
        some (fallbackDesc w e)) ∧
    (fallbackDesc w e).data = "⚠️ ".data ++
      (outerFallbackMsg w e ++ ". Showing demo visualization instead.").data ∧
    strContains (fallbackDesc w e) "demo" = true ∧
    strContains (fallbackDesc w e) (e.message w.fmtReset) = true := by
  have heq := analyze_fallback_eq w url st repo e hp hprobe
  refine ⟨by rw [heq], ?_, ?_, ?_, ?_⟩
  · refine ⟨_, by rw [heq], ?_⟩
    exact demoPages_head_desc (fallbackDesc w e)
  · simp [fallbackDesc, String.data_append]
  · unfold strContains fallbackDesc
    rw [show ("⚠️ " ++ outerFallbackMsg w e ++
        ". Showing demo visualization instead.").data
      = ("⚠️ ".data ++ (outerFallbackMsg w e).data) ++
        ". Showing demo visualization instead.".data from by
          simp [String.data_append]]
    exact hasSub_append_right _ (by decide)
  · unfold strContains fallbackDesc outerFallbackMsg
    rw [show ("⚠️ " ++ ("GitHub API unavailable (" ++ e.message w.fmtReset ++
        "). Showing demo visualization instead.") ++
        ". Showing demo visualization instead.").data
      = ("⚠️ ".data ++ "GitHub API unavailable (".data) ++
        ((e.message w.fmtReset).data ++
          ("). Showing demo visualization instead.".data ++
           ". Showing demo visualization instead.".data)) from by
          simp [String.data_append]]
    exact hasSub_middle _ _ _

/-- C4 witness: the theorem applied to the all-404 world `c4World`. -/
theorem claim_C4_witness :
    (analyzeGitHubRepo c4World "https://github.com/octocat/hello" "x").1 =
      .ok { DEMO_ANALYSIS c4World.loadTime (fallbackDesc c4World .notFound)
            with repoUrl := "https://github.com/octocat/hello",
                 repoName := "hello", timestamp := c4World.now } ∧
    strContains (fallbackDesc c4World .notFound) "demo" = true :=
  ⟨((claim_C4 c4World "https://github.com/octocat/hello" "x"
      { url := "https://github.com/octocat/hello", owner := "octocat",
        name := "hello", branch := "main" } .notFound (by decide) rfl).1),
   (claim_C4 c4World "https://github.com/octocat/hello" "x"
      { url := "https://github.com/octocat/hello", owner := "octocat",
        name := "hello", branch := "main" } .notFound (by decide) rfl).2.2.2.1⟩

/-! ## Claim C10 — the fallback path mutates the module-level dataset -/

/-- C10: the fallback result shares state with the module-level demo
dataset — in the state-passing model of the aliased `pages` array, after
a fallback invocation the module state (the demo dataset's first-page
description) equals the returned result's first-page description
(write-through), that value differs from the authored constant, and a
subsequent fallback invocation in the same process starts from — and
again writes through — the previous invocation's modified dataset rather
than the original fixed one. -/
theorem claim_C10 (w₁ w₂ : AnalyzeWorld) (url₁ url₂ : String)
    (repo₁ repo₂ : GitHubRepo) (e₁ e₂ : FetchError)
    (hp₁ : parseGitHubUrl url₁ = some repo₁)
    (he₁ : (fetchWithRetry w₁.probeAttempts).result = .error e₁)
    (hp₂ : parseGitHubUrl url₂ = some repo₂)
    (he₂ : (fetchWithRetry w₂.probeAttempts).result = .error e₂) :
    (∃ res, (analyzeGitHubRepo w₁ url₁ DEMO_HOME_DESC).1 = .ok res ∧
      res.pages.head?.map (·.metadata.description) =
        some (analyzeGitHubRepo w₁ url₁ DEMO_HOME_DESC).2) ∧
    (analyzeGitHubRepo w₁ url₁ DEMO_HOME_DESC).2 ≠ DEMO_HOME_DESC ∧
    (∃ res₂, (analyzeGitHubRepo w₂ url₂
        (analyzeGitHubRepo w₁ url₁ DEMO_HOME_DESC).2).1 = .ok res₂ ∧
      res₂.pages.head?.map (·.metadata.description) =
        some (analyzeGitHubRepo w₂ url₂
          (analyzeGitHubRepo w₁ url₁ DEMO_HOME_DESC).2).2) := by
  have h₁ := analyze_fallback_eq w₁ url₁ DEMO_HOME_DESC repo₁ e₁ hp₁ he₁
  have h₂ := analyze_fallback_eq w₂ url₂
    (analyzeGitHubRepo w₁ url₁ DEMO_HOME_DESC).2 repo₂ e₂ hp₂ he₂
  refine ⟨⟨_, by rw [h₁], ?_⟩, ?_, ⟨_, by rw [h₂], ?_⟩⟩
  · rw [show (analyzeGitHubRepo w₁ url₁ DEMO_HOME_DESC).2
      = fallbackDesc w₁ e₁ from by rw [h₁]]
    exact demoPages_head_desc (fallbackDesc w₁ e₁)
  · rw [show (analyzeGitHubRepo w₁ url₁ DEMO_HOME_DESC).2
      = fallbackDesc w₁ e₁ from by rw [h₁]]
    intro hcontra
    have hhead := congrArg (fun s => s.data.head?) hcontra
    dsimp only at hhead
    rw [show (fallbackDesc w₁ e₁).data.head? = some '⚠' from by
      simp [fallbackDesc, String.data_append]] at hhead
    rw [show DEMO_HOME_DESC.data.head? = some 'L' from rfl] at hhead
    exact absurd (Option.some.inj hhead) (by decide)
  · rw [show (analyzeGitHubRepo w₂ url₂
      (analyzeGitHubRepo w₁ url₁ DEMO_HOME_DESC).2).2
      = fallbackDesc w₂ e₂ from by rw [h₂]]
    exact demoPages_head_desc (fallbackDesc w₂ e₂)

/-- C10 witness: two consecutive fallback runs against the all-404
world; the first leaves the module dataset carrying its warning
description. -/
theorem claim_C10_witness :
    (∃ res, (analyzeGitHubRepo c4World "https://github.com/octocat/hello"
        DEMO_HOME_DESC).1 = .ok res ∧
      res.pages.head?.map (·.metadata.description) =
        some (analyzeGitHubRepo c4World "https://github.com/octocat/hello"
          DEMO_HOME_DESC).2) ∧
    (analyzeGitHubRepo c4World "https://github.com/octocat/hello"
      DEMO_HOME_DESC).2 ≠ DEMO_HOME_DESC :=
  ⟨(claim_C10 c4World c4World "https://github.com/octocat/hello"
      "https://github.com/octocat/hello"
      { url := "https://github.com/octocat/hello", owner := "octocat",
        name := "hello", branch := "main" }
      { url := "https://github.com/octocat/hello", owner := "octocat",
        name := "hello", branch := "main" }
      .notFound .notFound (by decide) rfl (by decide) rfl).1,
   (claim_C10 c4World c4World "https://github.com/octocat/hello"
      "https://github.com/octocat/hello"
      { url := "https://github.com/octocat/hello", owner := "octocat",
        name := "hello", branch := "main" }
      { url := "https://github.com/octocat/hello", owner := "octocat",
        name := "hello", branch := "main" }
      .notFound .notFound (by decide) rfl (by decide) rfl).2.1⟩

end Flowscope
